import Mathlib

/-!
Verification development for the type-expression constraint core of the
substrait validator (`parse/extensions/simple/type_expressions`).

The Rust sources are embedded shallowly:

 * `metavalues/set.rs`    — `Boolean`, `Integer`, `DataType` (set), `Set`;
 * `metavalues/data_type.rs` — `Pattern`, `Parameter` (match / covers / display);
 * `metavars/data.rs`     — `Data` (constrain / covers / merge);
 * `metavars/reference.rs` — `Reference`;
 * `constraints/constraint.rs` — `Constraint`.

Rust `Rc<RefCell<_>>` graphs are embedded as immutable trees (a reference
holds a snapshot of the data block it points at); the alias re-wiring of
`Data::merge_with`, which is genuinely about shared mutable state, is
embedded separately as a small explicit heap model near the end of the file.

Parts of the repository that the sources call but that are absent from the
crate snapshot (`util::integer_set`, `output::data_type` descriptors,
`metavars::alias`, `Pattern::intersects_with`, `Reference::covers`,
`Pattern::make_concrete`, `Parameter::matches`) are modelled from the spec;
each such definition carries a doc comment starting `Modelled from the
spec:`.
-/

namespace Substrait

/-- Modelled from the spec: a type class identifier (`output::data_type::Class`
is not part of the snapshot).  A class has a display name and declares whether
it takes a parameter pack (`Class::has_parameters`); its arity and
parameter-kind rules live in the external registry and are not needed by the
embedded operations. -/
structure Class where
  name : String
  hasParameters : Bool
deriving DecidableEq, Repr

/-- Modelled from the spec: `output::data_type::Variation` is itself an
option — `none` is the base variation, `some v` a named variation. -/
abbrev Variation := Option String

mutual
/-- Modelled from the spec: a fully concrete data type
(`output::data_type::DataType`): class, nullability, variation and concrete
parameter list. -/
inductive DataType where
  | mk (cls : Class) (nullable : Bool) (variation : Variation)
       (parameters : List CParam)

/-- Modelled from the spec: a concrete parameter (`output::data_type::Parameter`):
a type, a named type, or an unsigned integer. -/
inductive CParam where
  | Typ (t : DataType)
  | NamedType (n : String) (t : DataType)
  | Unsigned (u : Int)
end

def DataType.cls : DataType → Class
  | .mk c _ _ _ => c

def DataType.nullable : DataType → Bool
  | .mk _ n _ _ => n

def DataType.variation : DataType → Variation
  | .mk _ _ v _ => v

def DataType.parameters : DataType → List CParam
  | .mk _ _ _ p => p

/-- A metavalue (`metavalues::value::Value`): boolean, 64-bit signed integer
(embedded as `Int`; no operation in scope overflows), or concrete data type. -/
inductive Value where
  | Boolean (b : Bool)
  | Integer (i : Int)
  | DataType (d : DataType)

/-- Projection `Value::as_boolean`. -/
def Value.as_boolean : Value → Option Bool
  | .Boolean b => some b
  | _ => none

/-- A metavariable key (`metavars::key::Key`). -/
inductive Key where
  | Generic (name : String)
  | Inferred (id : Nat)
  | FunctionParameterType (i : Nat)
  | FunctionReturnType
deriving DecidableEq, Repr

/-- A set of boolean metavalues (`metavalues::set::Boolean`). -/
inductive Boolean where
  | All
  | Some (b : Bool)
  | None
deriving DecidableEq, Repr

/-- Source `Boolean::full`. -/
def Boolean.full : Boolean := Boolean.All

/-- Source `Boolean::empty`. -/
def Boolean.empty : Boolean := Boolean.None

/-- Source `Boolean::contains`. -/
def Boolean.contains : Boolean → Bool → Bool
  | .All, _ => true
  | .Some x, v => x == v
  | .None, _ => false

/-- Source `Boolean::superset_of`; the match arms are in source order. -/
def Boolean.superset_of : Boolean → Boolean → Bool
  | .All, _ => true
  | _, .All => false
  | _, .None => true
  | .None, _ => false
  | .Some x, .Some y => x == y

/-- Source `Boolean::intersects_with`; the match arms are in source order. -/
def Boolean.intersects_with : Boolean → Boolean → Bool
  | .None, _ => false
  | _, .None => false
  | .All, _ => true
  | _, .All => true
  | .Some x, .Some y => x == y

/-- Source `Boolean::is_empty`. -/
def Boolean.is_empty : Boolean → Bool
  | .None => true
  | _ => false

/-- Source `Boolean::value`. -/
def Boolean.value : Boolean → Option Bool
  | .Some x => some x
  | _ => none

theorem boolean_superset_trans (a b : Boolean) (v : Bool)
    (hs : a.superset_of b = true) (hc : b.contains v = true) :
    a.contains v = true := by
  cases a <;> cases b <;> simp_all [Boolean.superset_of, Boolean.contains]

theorem boolean_value_iff (b : Boolean) (v : Bool) (h : b.value = some v) :
    ∀ w, b.contains w = true ↔ w = v := by
  cases b <;> simp_all [Boolean.value, Boolean.contains]

/-- Modelled from the spec: one closed interval of `util::integer_set`
(`IntegerSet<i64>` is not part of the snapshot); `none` endpoints are
unbounded. -/
structure Intv where
  lo : Option Int
  hi : Option Int
deriving DecidableEq, Repr

/-- Membership in one interval. -/
def Intv.mem (v : Int) (i : Intv) : Bool :=
  (match i.lo with
   | none => true
   | some a => decide (a ≤ v)) &&
  (match i.hi with
   | none => true
   | some b => decide (v ≤ b))

/-- Whether one interval is empty (only a bounded interval can be). -/
def Intv.isEmpty (i : Intv) : Bool :=
  match i.lo, i.hi with
  | some a, some b => decide (b < a)
  | _, _ => false

/-- Intersection of two intervals: maximum of lower bounds, minimum of upper
bounds. -/
def Intv.inter (i j : Intv) : Intv :=
  ⟨match i.lo, j.lo with
   | none, l => l
   | l, none => l
   | some a, some b => some (max a b),
   match i.hi, j.hi with
   | none, h => h
   | h, none => h
   | some a, some b => some (min a b)⟩

/-- Difference of two intervals, as the (up to two) remaining pieces:
everything in `i` below `j` and everything in `i` above `j`. -/
def Intv.sub (i j : Intv) : List Intv :=
  ((match j.lo with
    | some bl => [Intv.mk none (some (bl - 1))]
    | none => []) ++
   (match j.hi with
    | some bh => [Intv.mk (some (bh + 1)) none]
    | none => [])).map (Intv.inter i) |>.filter (fun k => !k.isEmpty)

/-- Modelled from the spec: a canonicalizable union of closed intervals over
ℤ.  The spec's operations are sweeps that re-canonicalize; the embedding
keeps the same extensional semantics (the lemmas below are all about
membership) without maintaining the sortedness invariant. -/
def IntSet := List Intv
deriving DecidableEq

/-- Source `Integer::full` (`IntegerSet::new_full`): the single unbounded
interval. -/
def IntSet.full : IntSet := [Intv.mk none none]

/-- Source `Integer::empty` (`IntegerSet::default`). -/
def IntSet.empty : IntSet := ([] : List Intv)

/-- Source `Integer::contains`: some interval contains the value (the spec's
binary search, embedded as a linear scan with the same semantics). -/
def IntSet.contains (s : IntSet) (v : Int) : Bool :=
  s.any (Intv.mem v)

/-- Modelled from the spec: interval-set subtraction (`s` minus `o`), a sweep
removing every interval of `o` from every interval of `s`. -/
def IntSet.subtract (s o : IntSet) : IntSet :=
  o.foldl (fun acc b => acc.flatMap (fun a => Intv.sub a b)) s

/-- Modelled from the spec: interval-set intersection, pairwise interval
intersection with empty pieces dropped. -/
def IntSet.intersect (s o : IntSet) : IntSet :=
  (s.flatMap (fun a => o.map (Intv.inter a))).filter (fun k => !k.isEmpty)

/-- Source `Integer::is_empty`. -/
def IntSet.isEmpty (s : IntSet) : Bool :=
  s.all Intv.isEmpty

/-- Source `Integer::superset_of`: `other.subtract(self).is_empty()`. -/
def IntSet.superset_of (s o : IntSet) : Bool :=
  (o.subtract s).isEmpty

/-- Source `Integer::intersects_with`: the intersection is non-empty. -/
def IntSet.intersects_with (s o : IntSet) : Bool :=
  !(s.intersect o).isEmpty

/-- Source `Integer::value` per the spec: the singleton integer iff the set
is a single one-element interval. -/
def IntSet.value : IntSet → Option Int
  | [Intv.mk (some a) (some b)] => if a = b then some a else none
  | _ => none

theorem Intv.mem_not_empty (i : Intv) (v : Int) (h : i.mem v = true) :
    i.isEmpty = false := by
  cases i with
  | mk lo hi =>
    cases lo <;> cases hi <;> simp_all [Intv.mem, Intv.isEmpty] <;> omega

theorem Intv.mem_inter (i j : Intv) (v : Int) :
    (i.inter j).mem v = (i.mem v && j.mem v) := by
  rw [Bool.eq_iff_iff]
  cases i with
  | mk ilo ihi =>
    cases j with
    | mk jlo jhi =>
      cases ilo <;> cases ihi <;> cases jlo <;> cases jhi <;>
        simp [Intv.mem, Intv.inter] <;> omega

theorem Intv.any_mem_filter (l : List Intv) (v : Int) :
    ((l.filter (fun k => !k.isEmpty)).any (Intv.mem v)) = l.any (Intv.mem v) := by
  induction l with
  | nil => rfl
  | cons a l ih =>
    by_cases h : a.isEmpty = true
    · have hm : Intv.mem v a = false := by
        cases hm : Intv.mem v a
        · rfl
        · exact absurd (Intv.mem_not_empty a v hm) (by simp [h])
      simp [List.filter_cons, h, hm, ih]
    · simp at h
      simp [List.filter_cons, h, ih]

theorem Intv.mem_sub (i j : Intv) (v : Int) :
    ((i.sub j).any (Intv.mem v)) = (i.mem v && !j.mem v) := by
  rw [Bool.eq_iff_iff]
  cases i with
  | mk ilo ihi =>
    cases j with
    | mk jlo jhi =>
      cases ilo <;> cases ihi <;> cases jlo <;> cases jhi <;>
        simp [Intv.sub, Intv.any_mem_filter, List.any_map, Function.comp_def,
          Intv.inter, Intv.mem, Intv.isEmpty] <;> omega

theorem IntSet.contains_flatMap_sub (s : IntSet) (b : Intv) (v : Int) :
    IntSet.contains (s.flatMap (fun a => Intv.sub a b)) v
      = (IntSet.contains s v && !b.mem v) := by
  induction s with
  | nil => simp [IntSet.contains]
  | cons a s ih =>
    simp only [IntSet.contains, List.flatMap_cons, List.any_append,
      List.any_cons] at *
    rw [Intv.mem_sub, ih]
    cases Intv.mem v a <;> cases b.mem v <;> simp_all

theorem IntSet.contains_subtract (s o : IntSet) (v : Int) :
    IntSet.contains (s.subtract o) v = (s.contains v && !o.contains v) := by
  show IntSet.contains (List.foldl _ s o) v = _
  induction o generalizing s with
  | nil => simp [IntSet.subtract, IntSet.contains]
  | cons b o ih =>
    simp only [List.foldl_cons]
    rw [ih, IntSet.contains_flatMap_sub]
    simp only [IntSet.contains, List.any_cons]
    cases s.any (Intv.mem v) <;> cases b.mem v <;> simp

theorem IntSet.isEmpty_iff (s : IntSet) :
    s.isEmpty = true ↔ ∀ v, s.contains v = false := by
  constructor
  · intro h v
    cases hc : s.contains v
    · rfl
    · simp only [IntSet.contains, List.any_eq_true] at hc
      obtain ⟨i, hi, hm⟩ := hc
      simp only [IntSet.isEmpty, List.all_eq_true] at h
      have := h i hi
      rw [Intv.mem_not_empty i v hm] at this
      cases this
  · intro h
    simp only [IntSet.isEmpty, List.all_eq_true]
    intro i hi
    cases hlo : i.lo with
    | none =>
      cases hhi : i.hi with
      | none =>
        have := h 0
        simp [IntSet.contains, List.any_eq_true] at this
        have := this i hi
        simp [Intv.mem, hlo, hhi] at this
      | some b =>
        have := h b
        simp [IntSet.contains, List.any_eq_true] at this
        have := this i hi
        simp [Intv.mem, hlo, hhi] at this
    | some a =>
      cases hhi : i.hi with
      | none =>
        have := h a
        simp [IntSet.contains, List.any_eq_true] at this
        have := this i hi
        simp [Intv.mem, hlo, hhi] at this
      | some b =>
        by_cases hab : a ≤ b
        · have := h a
          simp [IntSet.contains, List.any_eq_true] at this
          have := this i hi
          simp [Intv.mem, hlo, hhi] at this
          omega
        · simp [Intv.isEmpty, hlo, hhi]
          omega

theorem intset_superset_trans (s o : IntSet) (v : Int)
    (hs : s.superset_of o = true) (hc : o.contains v = true) :
    s.contains v = true := by
  unfold IntSet.superset_of at hs
  rw [IntSet.isEmpty_iff] at hs
  have := hs v
  rw [IntSet.contains_subtract, hc] at this
  cases h : s.contains v
  · rw [h] at this
    simp at this
  · rfl

theorem intset_value_iff (s : IntSet) (v : Int) (h : s.value = some v) :
    ∀ w, s.contains w = true ↔ w = v := by
  match s, h with
  | [Intv.mk (some a) (some b)], h =>
    simp only [IntSet.value] at h
    split at h
    · cases h
      rename_i hab
      subst hab
      intro w
      simp [IntSet.contains, Intv.mem]
      omega
    · cases h

theorem IntSet.contains_full (v : Int) : IntSet.full.contains v = true := by
  simp [IntSet.full, IntSet.contains, Intv.mem]

mutual
/-- A data-type pattern (`metavalues::data_type::Pattern`): type class,
nullability metavariable, optional variation, optional parameter pack.
The Rust keyword-adjacent field `class` is embedded as `cls`. -/
inductive Pattern where
  | mk (cls : Class) (nullable : Option Reference)
       (variation : Option Variation) (parameters : Option (List Parameter))

/-- A parameter within a pattern's parameter pack
(`metavalues::data_type::Parameter`). -/
inductive Parameter where
  | mk (name : Option String) (value : Reference)

/-- A reference to a metavariable (`metavars::reference::Reference`).  In the
source the `alias` field is an `Rc<RefCell<Alias>>` initialized by `bind()`;
the embedding stores the referred alias block (with its data block) as an
immutable snapshot. -/
inductive Reference where
  | mk (key : Key) (description : Option String) (alia : Option Alias)

/-- Modelled from the spec: the alias block (`metavars::alias` is not part of
the snapshot).  Per the spec it owns a (possibly redirected) reference to a
data block and a display name. -/
inductive Alias where
  | mk (name : String) (data : Data)

/-- The data block for a metavariable (`metavars::data::Data`).  The source's
`aliases: Vec<metavars::alias::Weak>` field (weak back-edges used only for
merge-time rewiring) cannot be part of an immutable tree snapshot and is
embedded separately in the explicit heap model for `merge_with` below. -/
inductive Data where
  | mk (constraints : List Constraint) (values : Substrait.Set)
       (updated : Bool) (complete : Bool)

/-- A set of metavalues of any supported metatype (`metavalues::set::Set`). -/
inductive Set where
  | mk (booleans : Boolean) (integers : IntSet) (data_types : DataTypeSet)

/-- A set of data-type metavalues (`metavalues::set::DataType`; named
`DataTypeSet` here because the concrete `output::data_type::DataType` already
uses the source name). -/
inductive DataTypeSet where
  | All
  | Some (patterns : List Pattern)

/-- A constraint on a metavariable (`constraints::constraint::Constraint`). -/
inductive Constraint where
  | mk (data : ConstraintType) (reason : String)

/-- The types of constraints (`constraints::constraint::ConstraintType`).
The function vocabulary (`constraints::function::Function`, not part of the
snapshot) is modelled from the spec as an uninterpreted name. -/
inductive ConstraintType where
  | Within (s : Substrait.Set)
  | Function (f : String) (refs : List Reference)
  | Pattern (p : Pattern)
end

def Pattern.cls : Pattern → Class
  | .mk c _ _ _ => c

def Pattern.nullable : Pattern → Option Reference
  | .mk _ n _ _ => n

def Pattern.variation : Pattern → Option Variation
  | .mk _ _ v _ => v

def Pattern.parameters : Pattern → Option (List Parameter)
  | .mk _ _ _ p => p

def Parameter.name : Parameter → Option String
  | .mk n _ => n

def Parameter.value : Parameter → Reference
  | .mk _ v => v

def Reference.key : Reference → Key
  | .mk k _ _ => k

def Reference.description : Reference → Option String
  | .mk _ d _ => d

def Reference.alia : Reference → Option Alias
  | .mk _ _ a => a

def Alias.name : Alias → String
  | .mk n _ => n

def Alias.data : Alias → Data
  | .mk _ d => d

def Data.constraints : Data → List Constraint
  | .mk c _ _ _ => c

def Data.values : Data → Set
  | .mk _ v _ _ => v

def Data.updated : Data → Bool
  | .mk _ _ u _ => u

def Data.complete : Data → Bool
  | .mk _ _ _ c => c

def Set.booleans : Set → Boolean
  | .mk b _ _ => b

def Set.integers : Set → IntSet
  | .mk _ i _ => i

def Set.data_types : Set → DataTypeSet
  | .mk _ _ d => d

def Constraint.data : Constraint → ConstraintType
  | .mk d _ => d

def Constraint.reason : Constraint → String
  | .mk _ r => r

/-- Source `DataType::full` (the set, `metavalues::set::DataType::full`). -/
def DataTypeSet.full : DataTypeSet := DataTypeSet.All

/-- Source `DataType::empty` (the set). -/
def DataTypeSet.empty : DataTypeSet := DataTypeSet.Some []

/-- Source `DataType::is_empty` (the set). -/
def DataTypeSet.is_empty : DataTypeSet → Bool
  | .All => false
  | .Some x => x.isEmpty

/-- Source `Set::full`. -/
def Set.full : Set := Set.mk Boolean.full IntSet.full DataTypeSet.full

/-- Source `Set::empty`. -/
def Set.empty : Set := Set.mk Boolean.empty IntSet.empty DataTypeSet.empty

/-- Source `Set::is_empty`. -/
def Set.is_empty (s : Set) : Bool :=
  s.booleans.is_empty && s.integers.isEmpty && s.data_types.is_empty

/-- Helper for the derived `PartialEq` on `Option` fields. -/
def optBeq (f : α → α → Bool) : Option α → Option α → Bool
  | none, none => true
  | some a, some b => f a b
  | _, _ => false

/-- Helper for the derived `PartialEq` on `Vec` fields. -/
def listBeq (f : α → α → Bool) : List α → List α → Bool
  | [], [] => true
  | a :: as', b :: bs' => f a b && listBeq f as' bs'
  | _, _ => false

/-- Source `PartialEq for Reference`: two references are equal iff their keys
are (references aliasing the same value are NOT equal). -/
def Reference.beq (a b : Reference) : Bool :=
  a.key == b.key

/-- Source `PartialEq for Parameter`: compares only the value reference (the
name is ignored). -/
def Parameter.beq (a b : Parameter) : Bool :=
  a.value.beq b.value

/-- Source derived `PartialEq for Pattern`: fieldwise, with `Reference` and
`Parameter` compared by their custom `PartialEq` impls. -/
def Pattern.beq (a b : Pattern) : Bool :=
  a.cls == b.cls && optBeq Reference.beq a.nullable b.nullable &&
  a.variation == b.variation &&
  optBeq (listBeq Parameter.beq) a.parameters b.parameters

/-- Source derived `PartialEq for DataType` (the set). -/
def DataTypeSet.beq : DataTypeSet → DataTypeSet → Bool
  | .All, .All => true
  | .Some xs, .Some ys => listBeq Pattern.beq xs ys
  | _, _ => false

/-- Source derived `PartialEq for Set`. -/
def Set.beq (a b : Set) : Bool :=
  a.booleans == b.booleans && a.integers == b.integers &&
  DataTypeSet.beq a.data_types b.data_types

/-- Source derived `PartialEq for ConstraintType`. -/
def ConstraintType.beq : ConstraintType → ConstraintType → Bool
  | .Within s, .Within t => Set.beq s t
  | .Function f rs, .Function g ss => f == g && listBeq Reference.beq rs ss
  | .Pattern p, .Pattern q => Pattern.beq p q
  | _, _ => false

/-- Source derived `PartialEq for Constraint`: the data and the reason
string. -/
def Constraint.beq (a b : Constraint) : Bool :=
  ConstraintType.beq a.data b.data && a.reason == b.reason

theorem reference_beq_refl (a : Reference) : a.beq a = true := by
  simp [Reference.beq]

theorem optBeq_refl (f : α → α → Bool) (hf : ∀ x, f x x = true) :
    ∀ o, optBeq f o o = true := by
  intro o
  cases o <;> simp [optBeq, hf]

theorem listBeq_refl (f : α → α → Bool) (hf : ∀ x, f x x = true) :
    ∀ l, listBeq f l l = true := by
  intro l
  induction l with
  | nil => rfl
  | cons a l ih => simp [listBeq, hf, ih]

theorem parameter_beq_refl (a : Parameter) : a.beq a = true := by
  simp [Parameter.beq, Reference.beq]

theorem pattern_beq_refl (a : Pattern) : a.beq a = true := by
  simp [Pattern.beq, optBeq_refl _ reference_beq_refl,
    optBeq_refl _ (listBeq_refl _ parameter_beq_refl)]

theorem dts_beq_refl (a : DataTypeSet) : DataTypeSet.beq a a = true := by
  cases a <;> simp [DataTypeSet.beq, listBeq_refl _ pattern_beq_refl]

theorem mset_beq_refl (a : Set) : Set.beq a a = true := by
  simp [Set.beq, dts_beq_refl]

theorem constraint_beq_refl (a : Constraint) : Constraint.beq a a = true := by
  have : ConstraintType.beq a.data a.data = true := by
    cases a.data <;>
      simp [ConstraintType.beq, mset_beq_refl, pattern_beq_refl,
        listBeq_refl _ reference_beq_refl]
  simp [Constraint.beq, this]

/-- Ways `Data::constrain` can panic in the source: the completeness
assertion, or the `todo!()` arm reached when the value-set becomes empty
(the over-constrained diagnostic is unimplemented in the source). -/
inductive CFail where
  | assertComplete
  | overConstrained
deriving DecidableEq, Repr

/-- Source `Data::constrain`.  `Set::constrain` is `todo!()` in the source
for all three partitions, so the in-place update of the value-set is
abstracted as the explicit transformer `app`; everything else (the dedup
scan against stored constraints by structural equality, the completeness
assertion, the append, the emptiness check and the `updated` flag) follows
the source.  A panic is embedded as `Except.error`. -/
def Data.constrain (app : Constraint → Set → Set) (d : Data) (c : Constraint) :
    Except CFail Data :=
  if d.constraints.any (fun x => Constraint.beq x c) then
    Except.ok d
  else if d.complete then
    Except.error CFail.assertComplete
  else
    let values := app c d.values
    if values.is_empty then
      Except.error CFail.overConstrained
    else
      Except.ok (Data.mk (d.constraints ++ [c]) values true d.complete)

/-- Claim C5 — `constrain(c)` is idempotent: whenever a first call returns
normally with resulting block `d2`, a second call with the same constraint
finds the structurally equal stored constraint and returns `d2` unchanged
(same constraint list, same value-set, same `updated` flag), for every
value-set transformer `app`. -/
theorem constrain_idempotent (app : Constraint → Substrait.Set → Substrait.Set)
    (d d2 : Data) (c : Constraint)
    (h : Data.constrain app d c = Except.ok d2) :
    Data.constrain app d2 c = Except.ok d2 := by
  unfold Data.constrain at h ⊢
  by_cases hdup : d.constraints.any (fun x => Constraint.beq x c) = true
  · rw [if_pos hdup] at h
    cases h
    rw [if_pos hdup]
  · rw [if_neg hdup] at h
    by_cases hcomp : d.complete = true
    · rw [if_pos hcomp] at h
      cases h
    · rw [if_neg hcomp] at h
      by_cases hemp : (app c d.values).is_empty = true
      · simp only [hemp, if_true] at h
        cases h
      · simp only [hemp, if_false] at h
        cases h
        have : (Data.mk (d.constraints ++ [c]) (app c d.values) true
            d.complete).constraints.any (fun x => Constraint.beq x c) = true := by
          simp [Data.constraints, constraint_beq_refl]
        rw [if_pos this]

/-- Witness for C5 at a concrete input: a fresh block with the full value-set
and the identity transformer; the first call stores the constraint, the
second is a no-op. -/
theorem constrain_idempotent_witness :
    Data.constrain (fun _ s => s)
      (Data.mk [Constraint.mk (ConstraintType.Function "add" []) "r"]
        Set.full true false)
      (Constraint.mk (ConstraintType.Function "add" []) "r")
    = Except.ok (Data.mk [Constraint.mk (ConstraintType.Function "add" []) "r"]
        Set.full true false) :=
  constrain_idempotent (fun _ s => s)
    (Data.mk [] Set.full false false)
    (Data.mk [Constraint.mk (ConstraintType.Function "add" []) "r"]
      Set.full true false)
    (Constraint.mk (ConstraintType.Function "add" []) "r")
    rfl

/-- Claim C8 — the completeness assertion of `Data::constrain` is gated on
novelty: on a non-complete block the assertion can never fire, and on a
complete block a duplicate constraint returns `Ok` with the block unchanged,
never reaching the assertion. -/
theorem constrain_complete_assert (app : Constraint → Substrait.Set → Substrait.Set)
    (d : Data) (c : Constraint) :
    (d.complete = false → Data.constrain app d c ≠ Except.error CFail.assertComplete) ∧
    (d.complete = true →
      d.constraints.any (fun x => Constraint.beq x c) = true →
      Data.constrain app d c = Except.ok d) := by
  constructor
  · intro hcomp
    unfold Data.constrain
    by_cases hdup : d.constraints.any (fun x => Constraint.beq x c) = true
    · rw [if_pos hdup]
      intro h
      cases h
    · rw [if_neg hdup, if_neg (by simp [hcomp])]
      by_cases hemp : (app c d.values).is_empty = true
      · simp only [hemp, if_true]
        intro h
        cases h
      · simp only [hemp, if_false]
        intro h
        cases h
  · intro _ hdup
    unfold Data.constrain
    rw [if_pos hdup]

/-- Witness for C8 at concrete inputs: a non-complete empty block never hits
the assertion, and a complete block with the constraint already stored
returns unchanged. -/
theorem constrain_complete_assert_witness :
    (Data.constrain (fun _ s => s)
      (Data.mk [] Set.full false false)
      (Constraint.mk (ConstraintType.Function "mul" []) "s")
      ≠ Except.error CFail.assertComplete) ∧
    (Data.constrain (fun _ s => s)
      (Data.mk [Constraint.mk (ConstraintType.Function "mul" []) "s"]
        Set.full false true)
      (Constraint.mk (ConstraintType.Function "mul" []) "s")
      = Except.ok (Data.mk [Constraint.mk (ConstraintType.Function "mul" []) "s"]
        Set.full false true)) :=
  ⟨(constrain_complete_assert (fun _ s => s)
      (Data.mk [] Set.full false false)
      (Constraint.mk (ConstraintType.Function "mul" []) "s")).1 rfl,
   (constrain_complete_assert (fun _ s => s)
      (Data.mk [Constraint.mk (ConstraintType.Function "mul" []) "s"]
        Set.full false true)
      (Constraint.mk (ConstraintType.Function "mul" []) "s")).2 rfl
      (by simp [Data.constraints, constraint_beq_refl])⟩

/-- Modelled from the spec: the data block standing for an unbound reference —
the full, unresolved value-set, no constraints, not complete (spec 4.D and the
unbound behaviour of `Reference::matches`/`Reference::value`). -/
def fullData : Data := Data.mk [] Set.full false false

/-- Helper: `Data::covers` evaluated against `fullData` on the right, written
out without recursion (the theorem `coversFull_eq` below proves it equal to
the general `Data.covers d fullData`).  The right-hand block is never
complete, and the two value-sets always intersect per
`DataType::intersects_with` (whose `(_, All)` arm is constant true), so the
`Some(false)` branch of `Data::covers` always yields `None` here. -/
def Data.coversFull (d : Data) : Option Bool :=
  match d.values.data_types with
  | .All =>
    if Boolean.superset_of d.values.booleans Boolean.All &&
       IntSet.superset_of d.values.integers IntSet.full then
      if d.complete then some true else none
    else none
  | .Some _ => none

/-- Helper: `Set::intersects_with` with the full set on the left, written out
without recursion (`DataType::intersects_with`'s `(All, _)` arm is
`!other.is_empty()`); the theorem `intersectsFullLeft_eq` below proves it
equal to the general `Set.intersects_with Set.full s`. -/
def Set.intersectsFullLeft (s : Set) : Bool :=
  Boolean.intersects_with Boolean.All s.booleans ||
  IntSet.intersects_with IntSet.full s.integers ||
  !s.data_types.is_empty

/-- The variation step of `Pattern::matches`: checked only when the pattern
specifies a variation. -/
def matchesVar : Option Variation → Variation → Bool
  | none, _ => true
  | some v, var2 => v == var2

/-- The variation step of `Pattern::covers`: if `self` specifies a
variation, `other` must specify the same one. -/
def coversVar : Option Variation → Option Variation → Option Bool
  | some v1, some v2 => if v1 = v2 then some true else some false
  | some _, none => some false
  | none, _ => some true

/-- Result of the inner loop of `DataType::superset_of` for one pattern `y`:
a sub-query returned unknown, or `y` is not covered, or `y` was marked
covered after `n` intersecting candidates were seen. -/
inductive ScanRes where
  | unknown
  | uncovered
  | covered (n : Nat)
deriving DecidableEq, Repr

mutual

/-- Source `Pattern::matches`: class identity, then nullability (only when it
resolves to a concrete boolean), then variation (only when specified), then
the parameter pack (only when specified; length plus element-wise match). -/
def Pattern.matches : Pattern → DataType → Bool
  | .mk cls1 null1 var1 par1, .mk cls2 null2 var2 tps =>
    if cls1 = cls2 then
      matchesNull null1 null2 && matchesVar var1 var2 && matchesPars par1 tps
    else false

/-- The nullability step of `Pattern::matches`: checked only when the
metavariable resolves to a concrete boolean. -/
def matchesNull : Option Reference → Bool → Bool
  | none, _ => true
  | some r, null2 =>
    match Reference.value r with
    | some (Value.Boolean b) => b == null2
    | _ => true

/-- The parameter-pack step of `Pattern::matches`: checked only when the
pack is specified. -/
def matchesPars : Option (List Parameter) → List CParam → Bool
  | none, _ => true
  | some ps, tps => matchesParams ps tps

/-- Helper for `Pattern::matches`: the source's length check plus zipped
element-wise `Parameter::matches`, fused into one list recursion. -/
def matchesParams : List Parameter → List CParam → Bool
  | [], [] => true
  | p :: ps, c :: cs => Parameter.matches p c && matchesParams ps cs
  | _, _ => false

/-- Modelled from the spec: `Parameter::matches` is `todo!()` in the source;
its doc says it returns whether the given concrete parameter value matches
one of the remaining possible values of the metavariable, the parameter name
not being checked.  Concrete types and named types carry a data-type
metavalue, unsigned parameters an integer metavalue. -/
def Parameter.matches : Parameter → CParam → Bool
  | .mk _ r, .Typ t => Reference.matches r (Value.DataType t)
  | .mk _ r, .NamedType _ t => Reference.matches r (Value.DataType t)
  | .mk _ r, .Unsigned u => Reference.matches r (Value.Integer u)

/-- Source `Reference::matches`: containment in the referred data block's
value-set; an unbound reference matches everything. -/
def Reference.matches : Reference → Value → Bool
  | .mk _ _ (some (.mk _ d)), v => Data.matches d v
  | .mk _ _ none, _ => true

/-- Source `Data::matches`: containment in the value-set. -/
def Data.matches : Data → Value → Bool
  | .mk _ values _ _, v => Set.contains values v

/-- Source `Set::contains`: dispatch on the metatype of the value. -/
def Set.contains : Set → Value → Bool
  | .mk b _ _, .Boolean x => Boolean.contains b x
  | .mk _ i _, .Integer x => IntSet.contains i x
  | .mk _ _ d, .DataType x => DataTypeSet.contains d x

/-- Source `DataType::contains` (the set): some pattern matches the value. -/
def DataTypeSet.contains : DataTypeSet → DataType → Bool
  | .All, _ => true
  | .Some ps, t => containsAny ps t

/-- Helper: `x.iter().any(|x| x.matches(value))`. -/
def containsAny : List Pattern → DataType → Bool
  | [], _ => false
  | p :: ps, t => Pattern.matches p t || containsAny ps t

/-- Source `Reference::value`: the value of the referred data block; `None`
for an unbound reference. -/
def Reference.value : Reference → Option Value
  | .mk _ _ (some (.mk _ d)) => Data.value d
  | .mk _ _ none => none

/-- Source `Data::value`. -/
def Data.value : Data → Option Value
  | .mk _ values _ _ => Set.value values

/-- Source `Set::value`: dispatch on which partitions are empty; the source's
`diagnostic::Result` layer is dropped because the modelled `make_concrete`
does not produce class-validity errors. -/
def Set.value : Set → Option Value
  | .mk b i d =>
    match b.is_empty, IntSet.isEmpty i, DataTypeSet.is_empty d with
    | false, true, true => (Boolean.value b).map Value.Boolean
    | true, false, true => (IntSet.value i).map Value.Integer
    | true, true, false => (DataTypeSet.value d).map Value.DataType
    | _, _, _ => none

/-- Source `DataType::value` (the set): defined only for a one-pattern list,
via `make_concrete`. -/
def DataTypeSet.value : DataTypeSet → Option DataType
  | .Some [p] => Pattern.make_concrete p
  | _ => none

/-- Modelled from the spec: `Pattern::make_concrete` is `todo!()` in the
source; per spec 4.B a pattern yields a concrete type iff the class is fixed
(always, here), the nullability metavariable is present and resolved to a
boolean, the variation is fixed (specified, base included), and every
parameter metavariable is resolved to a value of a concrete parameter kind.
Class-local well-formedness (the error case) lives in the external registry
and is not modelled. -/
def Pattern.make_concrete : Pattern → Option DataType
  | .mk cls (some r) (some var) (some ps) =>
    (match Reference.value r, concretizeParams ps with
     | some (Value.Boolean b), some cs => some (DataType.mk cls b var cs)
     | _, _ => none)
  | _ => none

/-- Helper for the modelled `make_concrete`: concretize every parameter. -/
def concretizeParams : List Parameter → Option (List CParam)
  | [] => some []
  | p :: ps =>
    match concretizeParam p, concretizeParams ps with
    | some c, some cs => some (c :: cs)
    | _, _ => none

/-- Helper for the modelled `make_concrete`: one parameter concretizes when
its metavariable is resolved; a resolved data type yields a (possibly named)
type parameter, a resolved integer an unsigned parameter. -/
def concretizeParam : Parameter → Option CParam
  | .mk none r =>
    (match Reference.value r with
     | some (Value.DataType t) => some (CParam.Typ t)
     | some (Value.Integer i) => some (CParam.Unsigned i)
     | _ => none)
  | .mk (some n) r =>
    (match Reference.value r with
     | some (Value.DataType t) => some (CParam.NamedType n t)
     | _ => none)

/-- Source `Pattern::covers`: class identity, then nullability cover via the
references, then variation, then length-checked element-wise parameter
cover; the first sub-answer other than `Some(true)` is returned.  (In the
parameter-length mismatch arm the source literally writes `return false;` in
an `Option<bool>` function; it is embedded as the evident `Some(false)`.) -/
def Pattern.covers : Pattern → Pattern → Option Bool
  | .mk cls1 null1 var1 par1, .mk cls2 null2 var2 par2 =>
    if cls1 = cls2 then
      match coversNull null1 null2 with
      | some true =>
        (match coversVar var1 var2 with
         | some true => coversPars par1 par2
         | other => other)
      | other => other
    else some false

/-- The nullability step of `Pattern::covers`: delegate to the references
when both are present; `self` specified but `other` not is a definite no;
`self` unspecified always covers. -/
def coversNull : Option Reference → Option Reference → Option Bool
  | some r1, some r2 => Reference.covers r1 r2
  | some _, none => some false
  | none, _ => some true

/-- The parameter-pack step of `Pattern::covers`: both specified demands
equal length and element-wise cover; `self` specified but `other` not is a
definite no; `self` unspecified always covers. -/
def coversPars : Option (List Parameter) → Option (List Parameter) → Option Bool
  | some sp, some op =>
    if sp.length = op.length then coversParamsZip sp op else some false
  | some _, none => some false
  | none, _ => some true

/-- Helper for `Pattern::covers`: the zipped element-wise cover loop (called
with equal-length lists); the first sub-answer other than `Some(true)` is
returned. -/
def coversParamsZip : List Parameter → List Parameter → Option Bool
  | .mk _ r1 :: ps, .mk _ r2 :: qs =>
    (match Reference.covers r1 r2 with
     | some true => coversParamsZip ps qs
     | other => other)
  | _, _ => some true

/-- Modelled from the spec: `Reference::covers` is absent from the snapshot;
per spec 4.B nullability cover "delegates to the data block" (4.C), so two
bound references delegate to `Data::covers`.  An unbound reference stands
for the full, never-complete value-set (`fullData`): with it on the left
`Data::covers` can never commit (theorem `covers_full_left` below), and with
it on the right it reduces to the non-recursive `Data.coversFull` (theorem
`coversFull_eq` below). -/
def Reference.covers : Reference → Reference → Option Bool
  | .mk _ _ (some (.mk _ d1)), .mk _ _ (some (.mk _ d2)) => Data.covers d1 d2
  | .mk _ _ (some (.mk _ d1)), .mk _ _ none => Data.coversFull d1
  | .mk _ _ none, _ => none

/-- Source `Data::covers`: three-valued from `Set::superset_of`, the
completeness flags and `Set::intersects_with`. -/
def Data.covers : Data → Data → Option Bool
  | .mk _ v1 _ c1, .mk _ v2 _ c2 =>
    match Set.superset_of v1 v2 with
    | some true => if c1 then some true else none
    | some false =>
      if c2 || !(Set.intersects_with v1 v2) then some false else none
    | none => none

/-- Source `Set::superset_of`: the data-type answer gates the definite
boolean and integer answers. -/
def Set.superset_of : Set → Set → Option Bool
  | .mk b1 i1 d1, .mk b2 i2 d2 =>
    (DataTypeSet.superset_of d1 d2).map
      (fun result => result && Boolean.superset_of b1 b2 &&
        IntSet.superset_of i1 i2)

/-- Source `DataType::superset_of` (the set): each pattern of the right set
must be covered by the union of the left patterns, approximated by the
intersection-counting scan of the source. -/
def DataTypeSet.superset_of : DataTypeSet → DataTypeSet → Option Bool
  | .All, _ => some true
  | _, .All => some false
  | .Some x, .Some y =>
    if y.isEmpty then some true
    else if x.isEmpty then some false
    else scanYs x y false

/-- The inner loop of `DataType::superset_of` for one `y`: scan the `x`
patterns in order, counting the intersecting ones; the first intersecting
`x` whose cover answer is `Some(true)` stops the scan (the source's
`break`); `Some(false)` continues; `None` aborts the whole query. -/
def scanY : List Pattern → Pattern → Nat → ScanRes
  | [], _, _ => ScanRes.uncovered
  | x :: xs, y, n =>
    if Pattern.intersects_with x y then
      match Pattern.covers x y with
      | some true => ScanRes.covered (n + 1)
      | some false => scanY xs y (n + 1)
      | none => ScanRes.unknown
    else scanY xs y n

/-- The outer loop of `DataType::superset_of`: an unknown sub-answer yields
`None`, an uncovered `y` yields `Some(false)`, and the accumulated
too-complex flag (some covered `y` saw more than one intersection) turns the
final `Some(true)` into `None`. -/
def scanYs : List Pattern → List Pattern → Bool → Option Bool
  | _, [], tc => if tc then none else some true
  | xs, y :: ys, tc =>
    match scanY xs y 0 with
    | ScanRes.unknown => none
    | ScanRes.uncovered => some false
    | ScanRes.covered n => scanYs xs ys (tc || decide (n > 1))

/-- Source `Set::intersects_with`: some partition intersects. -/
def Set.intersects_with : Set → Set → Bool
  | .mk b1 i1 d1, .mk b2 i2 d2 =>
    Boolean.intersects_with b1 b2 || IntSet.intersects_with i1 i2 ||
    DataTypeSet.intersects_with d1 d2

/-- Source `DataType::intersects_with` (the set).  Both `All` arms are the
source's literal `!other.is_empty()`: in the second arm `other` is the `All`
argument itself, so that arm is constant `true` — even against an empty
pattern list (see claim C7). -/
def DataTypeSet.intersects_with : DataTypeSet → DataTypeSet → Bool
  | .All, other => !other.is_empty
  | _, .All => !DataTypeSet.All.is_empty
  | .Some xs, .Some ys => intersectsAnyPair xs ys

/-- Helper: the nested loops of `DataType::intersects_with`. -/
def intersectsAnyPair : List Pattern → List Pattern → Bool
  | [], _ => false
  | x :: xs, ys => intersectsOne x ys || intersectsAnyPair xs ys

/-- Helper: one left pattern against every right pattern. -/
def intersectsOne : Pattern → List Pattern → Bool
  | _, [] => false
  | x, y :: ys => Pattern.intersects_with x y || intersectsOne x ys

/-- Modelled from the spec: `Pattern::intersects_with` is absent from the
snapshot; per spec 4.B it is the symmetric check "class equal, nullability
sets intersect, variations compatible (at least one unspecified or equal),
parameter lists intersect pointwise", always a definite boolean.  A pack
unspecified on either side is compatible with anything (as in `matches` and
`covers`), and an unspecified or unbound nullability metavariable
contributes the full value-set. -/
def Pattern.intersects_with : Pattern → Pattern → Bool
  | .mk cls1 null1 var1 par1, .mk cls2 null2 var2 par2 =>
    decide (cls1 = cls2) &&
    nullIntersects null1 null2 &&
    (match var1, var2 with
     | none, _ => true
     | _, none => true
     | some v1, some v2 => v1 == v2) &&
    (match par1, par2 with
     | none, _ => true
     | _, none => true
     | some ps, some qs => decide (ps.length = qs.length) && paramsIntersect ps qs)

/-- Helper for the modelled `Pattern::intersects_with`: nullability sets
intersect.  Unspecified or unbound sides stand for the full set; the
full-set cases are written out non-recursively (`Set.intersects_with s full`
is constant true and `Set.intersects_with full s` is `intersectsFullLeft s`;
theorems `intersects_full_right` and `intersectsFullLeft_eq` below). -/
def nullIntersects : Option Reference → Option Reference → Bool
  | some r1, some r2 => refIntersects r1 r2
  | none, some (.mk _ _ (some (.mk _ (.mk _ v2 _ _)))) => Set.intersectsFullLeft v2
  | none, some (.mk _ _ none) => true
  | _, none => true

/-- Helper for the modelled `Pattern::intersects_with`: the value-sets of two
references intersect, an unbound reference standing for the full set. -/
def refIntersects : Reference → Reference → Bool
  | .mk _ _ (some (.mk _ (.mk _ v1 _ _))), .mk _ _ (some (.mk _ (.mk _ v2 _ _))) =>
    Set.intersects_with v1 v2
  | .mk _ _ (some _), .mk _ _ none => true
  | .mk _ _ none, .mk _ _ (some (.mk _ (.mk _ v2 _ _))) => Set.intersectsFullLeft v2
  | .mk _ _ none, .mk _ _ none => true

/-- Helper for the modelled `Pattern::intersects_with`: pointwise
intersection of the packs (called with equal-length lists). -/
def paramsIntersect : List Parameter → List Parameter → Bool
  | .mk _ r1 :: ps, .mk _ r2 :: qs => refIntersects r1 r2 && paramsIntersect ps qs
  | _, _ => true

end

theorem IntSet.subtract_full (s : IntSet) : s.subtract IntSet.full = IntSet.empty := by
  show List.foldl _ s [Intv.mk none none] = _
  simp only [List.foldl_cons, List.foldl_nil]
  induction s with
  | nil => rfl
  | cons a s ih => simp_all [Intv.sub, IntSet.empty]

theorem IntSet.full_superset (s : IntSet) : IntSet.superset_of IntSet.full s = true := by
  simp [IntSet.superset_of, IntSet.subtract_full s, IntSet.empty, IntSet.isEmpty]

theorem dts_intersects_all (d : DataTypeSet) :
    DataTypeSet.intersects_with d DataTypeSet.All = true := by
  cases d <;> simp [DataTypeSet.intersects_with, DataTypeSet.is_empty]

/-- Sanity: `Set::intersects_with` against the full set on the right is
constant true (the data-type partition's `(_, All)` arm). -/
theorem intersects_full_right (s : Set) :
    Set.intersects_with s Set.full = true := by
  cases s with
  | mk b i d =>
    simp [Set.intersects_with, Set.full, DataTypeSet.full, dts_intersects_all]

/-- Sanity: the non-recursive `Set.intersectsFullLeft` agrees with
`Set::intersects_with` applied to the full set on the left. -/
theorem intersectsFullLeft_eq (s : Set) :
    Set.intersects_with Set.full s = Set.intersectsFullLeft s := by
  cases s with
  | mk b i d =>
    simp [Set.intersects_with, Set.intersectsFullLeft, Set.full, Boolean.full,
      DataTypeSet.full, DataTypeSet.intersects_with, Set.booleans,
      Set.integers, Set.data_types]

/-- Sanity: `Data::covers` with the unbound block on the left can never
commit (the full set is a superset of everything but the block is not
complete). -/
theorem covers_full_left (d : Data) : Data.covers fullData d = none := by
  cases d with
  | mk cs v u c =>
    cases v with
    | mk b i dt =>
      simp [fullData, Data.covers, Set.superset_of, Set.full, DataTypeSet.full,
        DataTypeSet.superset_of, Boolean.superset_of, Boolean.full,
        IntSet.full_superset]

/-- Sanity: the non-recursive `Data.coversFull` agrees with `Data::covers`
against the unbound block on the right. -/
theorem coversFull_eq (d : Data) : Data.coversFull d = Data.covers d fullData := by
  cases d with
  | mk cs v u c =>
    cases v with
    | mk b i dt =>
      cases dt with
      | All =>
        simp only [Data.coversFull, Data.covers, fullData, Set.superset_of,
          Set.full, Boolean.full, DataTypeSet.full, DataTypeSet.superset_of,
          Data.values, Set.data_types, Set.booleans, Set.integers,
          Data.complete, Option.map_some, Bool.true_and]
        cases hb : Boolean.superset_of b Boolean.All &&
            IntSet.superset_of i IntSet.full <;>
          simp [hb, Set.intersects_with, DataTypeSet.intersects_with,
            dts_intersects_all]
      | Some xs =>
        simp [Data.coversFull, Data.covers, fullData, Set.superset_of,
          Set.full, Boolean.full, DataTypeSet.full, DataTypeSet.superset_of,
          Data.values, Set.data_types, Set.booleans, Set.integers,
          Data.complete, Set.intersects_with, DataTypeSet.intersects_with,
          DataTypeSet.is_empty]

/-- The data block a reference stands for: its alias target when bound, the
full unbound block otherwise. -/
def refDataOf : Reference → Data
  | .mk _ _ (some (.mk _ d)) => d
  | .mk _ _ none => fullData

/-- Sanity: the modelled `Reference::covers` is exactly `Data::covers` of the
blocks the two references stand for. -/
theorem Reference.covers_eq (r1 r2 : Reference) :
    Reference.covers r1 r2 = Data.covers (refDataOf r1) (refDataOf r2) := by
  cases r1 with
  | mk k1 d1 a1 =>
    cases r2 with
    | mk k2 d2 a2 =>
      cases a1 with
      | none => simp [Reference.covers, refDataOf, covers_full_left]
      | some al1 =>
        cases al1 with
        | mk n1 dat1 =>
          cases a2 with
          | none => simp [Reference.covers, refDataOf, coversFull_eq]
          | some al2 =>
            cases al2 with
            | mk n2 dat2 => simp [Reference.covers, refDataOf]

/-- The value-set a nullability slot stands for: the referred block's set
when bound, the full set when unspecified or unbound. -/
def nullSetOf : Option Reference → Set
  | some (.mk _ _ (some (.mk _ (.mk _ v _ _)))) => v
  | _ => Set.full

/-- Sanity: the modelled `refIntersects` is exactly `Set::intersects_with`
of the value-sets the references stand for. -/
theorem refIntersects_eq (r1 r2 : Reference) :
    refIntersects r1 r2 = Set.intersects_with (nullSetOf (some r1)) (nullSetOf (some r2)) := by
  cases r1 with
  | mk k1 d1 a1 =>
    cases r2 with
    | mk k2 d2 a2 =>
      cases a1 with
      | none =>
        cases a2 with
        | none => simp [refIntersects, nullSetOf, intersects_full_right]
        | some al2 =>
          cases al2 with
          | mk n2 dat2 =>
            cases dat2 with
            | mk c2 v2 u2 cp2 =>
              simp [refIntersects, nullSetOf, intersectsFullLeft_eq]
      | some al1 =>
        cases al1 with
        | mk n1 dat1 =>
          cases dat1 with
          | mk c1 v1 u1 cp1 =>
            cases a2 with
            | none => simp [refIntersects, nullSetOf, intersects_full_right]
            | some al2 =>
              cases al2 with
              | mk n2 dat2 =>
                cases dat2 with
                | mk c2 v2 u2 cp2 => simp [refIntersects, nullSetOf]

/-- Sanity: the modelled `nullIntersects` is exactly `Set::intersects_with`
of the value-sets the nullability slots stand for. -/
theorem nullIntersects_eq (n1 n2 : Option Reference) :
    nullIntersects n1 n2 = Set.intersects_with (nullSetOf n1) (nullSetOf n2) := by
  cases n1 with
  | some r1 =>
    cases n2 with
    | some r2 => simp [nullIntersects, refIntersects_eq]
    | none =>
      cases r1 with
      | mk k1 d1 a1 =>
        cases a1 with
        | none => simp [nullIntersects, nullSetOf, intersects_full_right]
        | some al1 =>
          cases al1 with
          | mk nm1 dat1 =>
            simp [nullIntersects, nullSetOf, intersects_full_right]
  | none =>
    cases n2 with
    | none => simp [nullIntersects, nullSetOf, intersects_full_right]
    | some r2 =>
      cases r2 with
      | mk k2 d2 a2 =>
        cases a2 with
        | none => simp [nullIntersects, nullSetOf, intersects_full_right]
        | some al2 =>
          cases al2 with
          | mk nm2 dat2 =>
            cases dat2 with
            | mk c2 v2 u2 cp2 =>
              simp [nullIntersects, nullSetOf, intersectsFullLeft_eq]

/-- Modelled from the spec: the generated description of a key
(`metavars::key::Key`'s Display, absent from the snapshot); only its
existence matters to the embedded `Display for Pattern`. -/
def Key.display : Key → String
  | .Generic n => n
  | .Inferred i => "?" ++ toString i
  | .FunctionParameterType i => "type of parameter " ++ toString i
  | .FunctionReturnType => "return type"

/-- Source `Display for Reference`: the alias block's description when bound
(the alias block's Display is modelled from the spec as printing its display
name; the `try_borrow` failure fallback cannot occur in the tree embedding),
else the reference's own description, else the key's description. -/
def Reference.display (r : Reference) : String :=
  match r.alia with
  | some a => a.name
  | none =>
    match r.description with
    | some s => s
    | none => r.key.display

/-- Modelled from the spec: `util::string::as_ident_or_string`'s identifier
test — nonempty, alphabetic or underscore first, alphanumeric or underscore
rest (spec 6: a name "is emitted bare if a valid identifier"). -/
def isIdent (s : String) : Bool :=
  match s.toList with
  | [] => false
  | c :: cs => (c.isAlpha || c == '_') && cs.all (fun x => x.isAlphanum || x == '_')

/-- Modelled from the spec: `util::string::as_ident_or_string` — bare if a
valid identifier, double-quoted otherwise. -/
def asIdentOrString (s : String) : String :=
  if isIdent s then s else "\"" ++ s ++ "\""

/-- Source `Display for Parameter`: optional `name: ` prefix, then the value
reference. -/
def Parameter.display (p : Parameter) : String :=
  (match p.name with
   | some n => asIdentOrString n ++ ": "
   | none => "") ++ p.value.display

/-- Helper: the comma-separated parameter list of the pack (the source's
`first` flag loop). -/
def displayParams : List Parameter → String
  | [] => ""
  | [p] => p.display
  | p :: ps => p.display ++ ", " ++ displayParams ps

/-- The nullability segment of `Display for Pattern`: `?` when resolved true,
nothing when resolved false, `?name` when unresolved, `??` when no
metavariable was supplied. -/
def nullPart (p : Pattern) : String :=
  match p.nullable with
  | none => "??"
  | some r =>
    match (Reference.value r).bind Value.as_boolean with
    | some true => "?"
    | some false => ""
    | none => "?" ++ r.display

/-- The variation segment of `Display for Pattern`: `[v]` when specified,
nothing for the base variation, `[?]` when unspecified. -/
def varPart (p : Pattern) : String :=
  match p.variation with
  | some (some v) => "[" ++ v ++ "]"
  | some none => ""
  | none => "[?]"

/-- The parameter-pack segment of `Display for Pattern`: printed only when
the class has parameters AND the pack is specified. -/
def packPart (p : Pattern) : String :=
  if p.cls.hasParameters then
    match p.parameters with
    | some ps => "<" ++ displayParams ps ++ ">"
    | none => ""
  else ""

/-- Source `Display for Pattern`: class, nullability, variation, parameter
pack. -/
def Pattern.display (p : Pattern) : String :=
  p.cls.name ++ nullPart p ++ varPart p ++ packPart p

/-- Claim C4 — `Data::covers` is determined by `Set::superset_of` on the two
value-sets together with the completeness flags and set intersection: on a
definite *true* it answers true iff `self` is complete (unknown otherwise);
on a definite *false* it answers false iff `other` is complete or the sets do
not intersect (unknown otherwise); on *unknown* it answers unknown. -/
theorem covers_cases (A B : Data) :
    (Set.superset_of A.values B.values = some true →
      (Data.covers A B = some true ↔ A.complete = true) ∧
      (Data.covers A B = none ↔ A.complete = false)) ∧
    (Set.superset_of A.values B.values = some false →
      (Data.covers A B = some false ↔
        (B.complete = true ∨ Set.intersects_with A.values B.values = false)) ∧
      (Data.covers A B = none ↔
        (B.complete = false ∧ Set.intersects_with A.values B.values = true))) ∧
    (Set.superset_of A.values B.values = none → Data.covers A B = none) := by
  cases A with
  | mk cs1 v1 u1 c1 =>
    cases B with
    | mk cs2 v2 u2 c2 =>
      simp only [Data.values, Data.complete]
      refine ⟨fun hs => ?_, fun hs => ?_, fun hs => ?_⟩
      · simp only [Data.covers, hs]
        cases c1 <;> simp
      · simp only [Data.covers, hs]
        cases c2 <;> cases hi : Set.intersects_with v1 v2 <;> simp_all
      · simp only [Data.covers, hs]

/-- Witness for C4 at concrete blocks: two identical empty value-sets (a
definite superset), with the left block complete, give a definite cover. -/
theorem covers_cases_witness :
    Data.covers
      (Data.mk [] (Set.mk Boolean.None IntSet.empty (DataTypeSet.Some [])) false true)
      (Data.mk [] (Set.mk Boolean.None IntSet.empty (DataTypeSet.Some [])) false false)
    = some true :=
  (((covers_cases
      (Data.mk [] (Set.mk Boolean.None IntSet.empty (DataTypeSet.Some [])) false true)
      (Data.mk [] (Set.mk Boolean.None IntSet.empty (DataTypeSet.Some [])) false false)).1
    (by simp [Data.values, Set.superset_of, DataTypeSet.superset_of,
      Boolean.superset_of, IntSet.superset_of, IntSet.subtract, IntSet.empty,
      IntSet.isEmpty])).1).mpr rfl

/-- Claim C7 — the code bug in `DataType::intersects_with`: its `(_, All)`
arm evaluates `!other.is_empty()` where `other` is the `All` argument itself,
so the empty pattern list is reported as intersecting the universal set, and
the function is not symmetric, contradicting both the claim and the
function's own documentation. -/
theorem intersects_with_empty_all_bug :
    DataTypeSet.is_empty (DataTypeSet.Some []) = true ∧
    DataTypeSet.intersects_with (DataTypeSet.Some []) DataTypeSet.All = true ∧
    DataTypeSet.intersects_with DataTypeSet.All (DataTypeSet.Some []) = false := by
  refine ⟨rfl, ?_, ?_⟩ <;>
    simp [DataTypeSet.intersects_with, DataTypeSet.is_empty]

/-- Claim C10 — an unbound reference (alias `None`) matches every metavalue
and has no resolved value: it behaves as a metavariable with the full,
unresolved value-set instead of failing. -/
theorem unbound_reference_behavior (k : Key) (d : Option String) (v : Value) :
    Reference.matches (Reference.mk k d none) v = true ∧
    Reference.value (Reference.mk k d none) = none := by
  constructor <;> simp [Reference.matches, Reference.value]

/-- Counterexample for C9 as stated: a pattern of a parameterless class whose
pack is specified as the empty list prints without any `<>` — identically to
the same pattern with the pack unspecified — because the source prints the
pack only when `class.has_parameters()` holds. -/
theorem display_pack_counterexample :
    (Pattern.mk (Class.mk "c" false) none (some none) (some [])).parameters
      = some [] ∧
    Pattern.display (Pattern.mk (Class.mk "c" false) none (some none) (some []))
      = "c??" ∧
    Pattern.display (Pattern.mk (Class.mk "c" false) none (some none) none)
      = "c??" ∧
    ("c??".toList.contains '<') = false := by
  refine ⟨rfl, ?_, ?_, by decide⟩ <;>
    simp [Pattern.display, nullPart, varPart, packPart, Pattern.cls,
      Pattern.nullable, Pattern.variation, Pattern.parameters]

/-- Claim C9 as amended — the parameter pack `<p₁, p₂, …>` is omitted exactly
when the pattern's parameters are unspecified OR the class takes no
parameters; when the class has parameters and the pack is specified
(including the empty list, shown as `<>`) the angle-bracketed pack is
printed, and the display output is the concatenation class, nullability,
variation, pack. -/
theorem display_pack_amended (p : Pattern) :
    (p.cls.hasParameters = false ∨ p.parameters = none → packPart p = "") ∧
    (∀ ps, p.cls.hasParameters = true → p.parameters = some ps →
      packPart p = "<" ++ displayParams ps ++ ">") ∧
    Pattern.display p = p.cls.name ++ nullPart p ++ varPart p ++ packPart p := by
  refine ⟨fun h => ?_, fun ps h1 h2 => ?_, rfl⟩
  · cases h with
    | inl h => simp [packPart, h]
    | inr h => cases hp : p.cls.hasParameters <;> simp [packPart, h, hp]
  · simp [packPart, h1, h2]

/-- Witness for C9 (amended) at a concrete pattern: a parameterized class
with an empty specified pack prints `<>`. -/
theorem display_pack_amended_witness :
    packPart (Pattern.mk (Class.mk "list" true) none (some none) (some []))
      = "<>" :=
  (display_pack_amended
      (Pattern.mk (Class.mk "list" true) none (some none) (some []))).2.1
    [] rfl rfl

/-- How many patterns of `xs` intersect `y` (the quantity claim C1 counts). -/
def countIntersecting (xs : List Pattern) (y : Pattern) : Nat :=
  (xs.filter (fun x => Pattern.intersects_with x y)).length

/-- A featureless pattern of class `c` used in the C1 counterexample: it
intersects and definitively covers every same-class pattern. -/
def pPlain : Pattern := Pattern.mk (Class.mk "c" false) none none none

/-- Counterexample for C1 as stated: with `xs = [pPlain, pPlain]` and
`ys = [pPlain]`, the single `y` intersects both patterns of `xs`, yet
`superset_of` answers a definite `Some(true)` — the source's inner loop
`break`s at the first intersecting pattern whose cover answer is definite
true, before the second intersection is ever counted. -/
theorem superset_too_complex_counterexample :
    ¬ (∀ xs ys : List Pattern, xs ≠ [] → ys ≠ [] →
        (∃ y ∈ ys, 2 ≤ countIntersecting xs y) →
        DataTypeSet.superset_of (DataTypeSet.Some xs) (DataTypeSet.Some ys)
          = none) := by
  intro h
  have h2 := h [pPlain, pPlain] [pPlain] (by simp) (by simp)
    ⟨pPlain, by simp, by
      simp [countIntersecting, Pattern.intersects_with, nullIntersects, pPlain]⟩
  rw [show DataTypeSet.superset_of (DataTypeSet.Some [pPlain, pPlain])
      (DataTypeSet.Some [pPlain]) = some true from by
    simp [DataTypeSet.superset_of, scanYs, scanY, Pattern.intersects_with,
      nullIntersects, Pattern.covers, coversNull, coversVar, coversPars,
      pPlain]] at h2
  cases h2

/-- Claim C1 as amended — the too-complex rule counts only the intersections
the scan actually sees: the scan of `y` over `xs` stops at the first
intersecting pattern with a definite-true cover.  If every `y` of the
(non-empty) right set is covered by such a scan and some `y`'s scan saw more
than one intersecting pattern before stopping, `superset_of` returns
unknown. -/
theorem superset_too_complex_amended (xs ys : List Pattern)
    (hxs : xs ≠ []) (hys : ys ≠ [])
    (hcov : ∀ y ∈ ys, ∃ n, scanY xs y 0 = ScanRes.covered n)
    (htc : ∃ y ∈ ys, ∃ n, scanY xs y 0 = ScanRes.covered n ∧ 1 < n) :
    DataTypeSet.superset_of (DataTypeSet.Some xs) (DataTypeSet.Some ys)
      = none := by
  have all_covered_tc :
      ∀ ys' : List Pattern, (∀ y ∈ ys', ∃ n, scanY xs y 0 = ScanRes.covered n) →
        scanYs xs ys' true = none := by
    intro ys'
    induction ys' with
    | nil => intro _; simp [scanYs]
    | cons y ys' ih =>
      intro hc
      obtain ⟨n, hn⟩ := hc y (by simp)
      rw [show scanYs xs (y :: ys') true
          = scanYs xs ys' (true || decide (1 < n)) from by simp [scanYs, hn]]
      simp only [Bool.true_or]
      exact ih (fun z hz => hc z (by simp [hz]))
  have main : ∀ ys' : List Pattern, ∀ tc : Bool,
      (∀ y ∈ ys', ∃ n, scanY xs y 0 = ScanRes.covered n) →
      (∃ y ∈ ys', ∃ n, scanY xs y 0 = ScanRes.covered n ∧ 1 < n) →
      scanYs xs ys' tc = none := by
    intro ys'
    induction ys' with
    | nil =>
      intro tc _ hex
      obtain ⟨y, hy, _⟩ := hex
      cases hy
    | cons y ys' ih =>
      intro tc hc hex
      obtain ⟨n, hn⟩ := hc y (by simp)
      rw [show scanYs xs (y :: ys') tc
          = scanYs xs ys' (tc || decide (1 < n)) from by simp [scanYs, hn]]
      obtain ⟨z, hz, m, hm, hm1⟩ := hex
      rcases List.mem_cons.mp hz with hzy | hztl
      · subst hzy
        rw [hn] at hm
        cases hm
        rw [show (tc || decide (1 < n)) = true from by simp [hm1]]
        exact all_covered_tc ys' (fun w hw => hc w (by simp [hw]))
      · exact ih (tc || decide (1 < n))
          (fun w hw => hc w (by simp [hw])) ⟨z, hztl, m, hm, hm1⟩
  have hye : ys.isEmpty = false := by
    cases ys
    · exact absurd rfl hys
    · rfl
  have hxe : xs.isEmpty = false := by
    cases xs
    · exact absurd rfl hxs
    · rfl
  rw [show DataTypeSet.superset_of (DataTypeSet.Some xs) (DataTypeSet.Some ys)
      = scanYs xs ys false from by simp [DataTypeSet.superset_of, hye, hxe]]
  exact main ys false hcov htc

/-- A pattern of class `c` restricted to a named variation: it intersects the
featureless `pPlain` (one side's variation is unspecified) but its cover
answer against it is definite false. -/
def pVar : Pattern := Pattern.mk (Class.mk "c" false) none (some (some "v")) none

/-- Witness for C1 (amended) at concrete patterns: scanning
`xs = [pVar, pPlain]` for `y = pPlain` passes the non-covering but
intersecting `pVar` first, so the covering scan stops at `pPlain` with two
intersections counted, and the whole query is unknown. -/
theorem superset_too_complex_amended_witness :
    DataTypeSet.superset_of (DataTypeSet.Some [pVar, pPlain])
      (DataTypeSet.Some [pPlain]) = none :=
  superset_too_complex_amended [pVar, pPlain] [pPlain] (by simp) (by simp)
    (by
      intro y hy
      rw [List.mem_singleton.mp hy]
      exact ⟨2, by
        simp [scanY, Pattern.intersects_with, nullIntersects, Pattern.covers,
          coversNull, coversVar, coversPars, pVar, pPlain]⟩)
    ⟨pPlain, by simp, 2, by
      simp [scanY, Pattern.intersects_with, nullIntersects, Pattern.covers,
        coversNull, coversVar, coversPars, pVar, pPlain], by omega⟩

/-- The combined singleton-soundness statement, graded by size: a resolved
set contains its value, a concretizable pattern matches its concretization,
a resolved reference matches its value, and a concretized parameter list
matches element-wise. -/
def ValueSound (N : Nat) : Prop :=
  (∀ s : Set, sizeOf s ≤ N → ∀ v, Set.value s = some v →
    Set.contains s v = true) ∧
  (∀ p : Pattern, sizeOf p ≤ N → ∀ t, Pattern.make_concrete p = some t →
    Pattern.matches p t = true) ∧
  (∀ r : Reference, sizeOf r ≤ N → ∀ v, Reference.value r = some v →
    Reference.matches r v = true) ∧
  (∀ ps : List Parameter, sizeOf ps ≤ N → ∀ cs,
    concretizeParams ps = some cs → matchesParams ps cs = true)

theorem valueSound : ∀ N, ValueSound N := by
  intro N
  induction N using Nat.strong_induction_on with
  | _ N ih =>
    refine ⟨?_, ?_, ?_, ?_⟩
    · -- sets
      intro s hs v h
      cases s with
      | mk b i d =>
        simp only [Set.value] at h
        split at h
        · -- boolean partition
          rename_i hb hi hd
          obtain ⟨b', hb', hv⟩ := Option.map_eq_some'.mp h
          subst hv
          simpa [Set.contains] using (boolean_value_iff b b' hb' b').mpr rfl
        · -- integer partition
          rename_i hb hi hd
          obtain ⟨i', hi', hv⟩ := Option.map_eq_some'.mp h
          subst hv
          simpa [Set.contains] using (intset_value_iff i i' hi' i').mpr rfl
        · -- data-type partition
          rename_i hb hi hd
          obtain ⟨t, ht, hv⟩ := Option.map_eq_some'.mp h
          subst hv
          cases d with
          | All => simp [DataTypeSet.value] at ht
          | Some ps =>
            match ps, ht with
            | [p], ht =>
              have hps : Pattern.make_concrete p = some t := by
                simpa [DataTypeSet.value] using ht
              have hsz : sizeOf p < N := by
                have : sizeOf p < sizeOf (Set.mk b i (DataTypeSet.Some [p])) := by
                  simp
                  omega
                omega
              have hm := (ih (sizeOf p) hsz).2.1 p le_rfl t hps
              simp [Set.contains, DataTypeSet.contains, containsAny, hm]
        · exact absurd h (by simp)
    · -- patterns
      intro p hp t h
      match p, h with
      | Pattern.mk cls (some r) (some var) (some ps), h =>
        simp only [Pattern.make_concrete] at h
        split at h
        · rename_i b cs hrv hcs
          obtain rfl : DataType.mk cls b var cs = t := by
            simpa using h
          have hszr : sizeOf ps < N := by
            have : sizeOf ps <
                sizeOf (Pattern.mk cls (some r) (some var) (some ps)) := by
              simp
              omega
            omega
          have hmp := (ih (sizeOf ps) hszr).2.2.2 ps le_rfl cs hcs
          simp [Pattern.matches, matchesNull, matchesVar, matchesPars, hrv, hmp]
        · exact absurd h (by simp)
    · -- references
      intro r hr v h
      cases r with
      | mk k dsc al =>
        match al, h with
        | some (Alias.mk nm dat), h =>
          cases dat with
          | mk cs vals u c =>
            have hval : Set.value vals = some v := by
              simpa [Reference.value, Data.value] using h
            have hsz : sizeOf vals < N := by
              have : sizeOf vals < sizeOf (Reference.mk k dsc
                  (some (Alias.mk nm (Data.mk cs vals u c)))) := by
                simp
                omega
              omega
            have hc := (ih (sizeOf vals) hsz).1 vals le_rfl v hval
            simp [Reference.matches, Data.matches, hc]
    · -- parameter lists
      intro ps hps cs h
      cases ps with
      | nil =>
        obtain rfl : cs = [] := by simpa [concretizeParams] using h.symm
        simp [matchesParams]
      | cons p ps' =>
        simp only [concretizeParams] at h
        split at h
        · rename_i c cs' hc hcs
          obtain rfl : c :: cs' = cs := by simpa using h
          have htl : sizeOf ps' < N := by
            have : sizeOf ps' < sizeOf (p :: ps') := by
              simp
            omega
          have hmtl := (ih (sizeOf ps') htl).2.2.2 ps' le_rfl cs' hcs
          cases p with
          | mk nm r =>
            have hszr : sizeOf r < N := by
              have : sizeOf r < sizeOf (Parameter.mk nm r :: ps') := by
                simp
                omega
              omega
            cases nm with
            | none =>
              simp only [concretizeParam] at hc
              split at hc
              · rename_i t' hrv
                obtain rfl : CParam.Typ t' = c := by simpa using hc
                have := (ih (sizeOf r) hszr).2.2.1 r le_rfl (Value.DataType t') hrv
                simp [matchesParams, Parameter.matches, this, hmtl]
              · rename_i i' hrv
                obtain rfl : CParam.Unsigned i' = c := by simpa using hc
                have := (ih (sizeOf r) hszr).2.2.1 r le_rfl (Value.Integer i') hrv
                simp [matchesParams, Parameter.matches, this, hmtl]
              · exact absurd hc (by simp)
            | some n =>
              simp only [concretizeParam] at hc
              split at hc
              · rename_i t' hrv
                obtain rfl : CParam.NamedType n t' = c := by simpa using hc
                have := (ih (sizeOf r) hszr).2.2.1 r le_rfl (Value.DataType t') hrv
                simp [matchesParams, Parameter.matches, this, hmtl]
              · exact absurd hc (by simp)
        · exact absurd h (by simp)

theorem IntSet.isEmpty_contains (s : IntSet) (h : IntSet.isEmpty s = true)
    (v : Int) : s.contains v = false :=
  (IntSet.isEmpty_iff s).mp h v

theorem dts_is_empty_some (d : DataTypeSet) (h : d.is_empty = true) :
    d = DataTypeSet.Some [] := by
  cases d with
  | All => simp [DataTypeSet.is_empty] at h
  | Some ps =>
    cases ps with
    | nil => rfl
    | cons p ps => simp [DataTypeSet.is_empty] at h

/-- Claim C6 as amended — `Set::value` returns `Some(v)` iff exactly one of
the three partitions is non-empty and that partition's own `value()` yields
`v` (for the data-type partition: a one-pattern list whose pattern
concretizes).  The returned value is always contained in the set, and a
boolean or integer result does pin the set down to the exact singleton; a
data-type result need not (a duplicated pattern list defeats singleton-ness,
see the counterexample). -/
theorem Set.value_eq_iff (b : Boolean) (i : IntSet) (d : DataTypeSet)
    (u : Value) :
    Set.value (Set.mk b i d) = some u ↔
      (b.is_empty = false ∧ IntSet.isEmpty i = true ∧
         d.is_empty = true ∧
         ∃ b', Boolean.value b = some b' ∧ u = Value.Boolean b') ∨
      (b.is_empty = true ∧ IntSet.isEmpty i = false ∧
         d.is_empty = true ∧
         ∃ i', IntSet.value i = some i' ∧ u = Value.Integer i') ∨
      (b.is_empty = true ∧ IntSet.isEmpty i = true ∧
         d.is_empty = false ∧
         ∃ p t, d = DataTypeSet.Some [p] ∧
           Pattern.make_concrete p = some t ∧ u = Value.DataType t) := by
  constructor
  · intro h
    simp only [Set.value] at h
    split at h
    · rename_i hb hi hd
      obtain ⟨b', hb', hv⟩ := Option.map_eq_some'.mp h
      exact Or.inl ⟨hb, hi, hd, b', hb', hv.symm⟩
    · rename_i hb hi hd
      obtain ⟨i', hi', hv⟩ := Option.map_eq_some'.mp h
      exact Or.inr (Or.inl ⟨hb, hi, hd, i', hi', hv.symm⟩)
    · rename_i hb hi hd
      obtain ⟨t, ht, hv⟩ := Option.map_eq_some'.mp h
      cases d with
      | All => simp [DataTypeSet.value] at ht
      | Some ps =>
        match ps, ht with
        | [p], ht =>
          exact Or.inr (Or.inr ⟨hb, hi, hd, p, t,
            rfl, by simpa [DataTypeSet.value] using ht, hv.symm⟩)
    · exact absurd h (by simp)
  · intro h
    rcases h with ⟨hb, hi, hd, b', hb', rfl⟩ |
      ⟨hb, hi, hd, i', hi', rfl⟩ | ⟨hb, hi, hd, p, t, rfl, hmc, rfl⟩
    · simp [Set.value, hb, hi, hd, hb']
    · simp [Set.value, hb, hi, hd, hi']
    · simp only [DataTypeSet.is_empty, List.isEmpty_cons] at hd
      simp [Set.value, hb, hi, DataTypeSet.is_empty, DataTypeSet.value, hmc]

theorem set_value_amended (S : Set) (v : Value) :
    (Set.value S = some v ↔
      (S.booleans.is_empty = false ∧ IntSet.isEmpty S.integers = true ∧
         S.data_types.is_empty = true ∧
         ∃ b, Boolean.value S.booleans = some b ∧ v = Value.Boolean b) ∨
      (S.booleans.is_empty = true ∧ IntSet.isEmpty S.integers = false ∧
         S.data_types.is_empty = true ∧
         ∃ i, IntSet.value S.integers = some i ∧ v = Value.Integer i) ∨
      (S.booleans.is_empty = true ∧ IntSet.isEmpty S.integers = true ∧
         S.data_types.is_empty = false ∧
         ∃ p t, S.data_types = DataTypeSet.Some [p] ∧
           Pattern.make_concrete p = some t ∧ v = Value.DataType t)) ∧
    (Set.value S = some v → Set.contains S v = true) ∧
    (∀ b, Set.value S = some (Value.Boolean b) →
      ∀ w, Set.contains S w = true ↔ w = Value.Boolean b) ∧
    (∀ i, Set.value S = some (Value.Integer i) →
      ∀ w, Set.contains S w = true ↔ w = Value.Integer i) := by
  cases S with
  | mk b i d =>
    have hiff : ∀ u : Value, Set.value (Set.mk b i d) = some u ↔
        (b.is_empty = false ∧ IntSet.isEmpty i = true ∧
           d.is_empty = true ∧
           ∃ b', Boolean.value b = some b' ∧ u = Value.Boolean b') ∨
        (b.is_empty = true ∧ IntSet.isEmpty i = false ∧
           d.is_empty = true ∧
           ∃ i', IntSet.value i = some i' ∧ u = Value.Integer i') ∨
        (b.is_empty = true ∧ IntSet.isEmpty i = true ∧
           d.is_empty = false ∧
           ∃ p t, d = DataTypeSet.Some [p] ∧
             Pattern.make_concrete p = some t ∧ u = Value.DataType t) :=
      fun u => Set.value_eq_iff b i d u
    refine ⟨by simpa [Set.booleans, Set.integers, Set.data_types] using hiff v,
      fun h => (valueSound (sizeOf (Set.mk b i d))).1 _ le_rfl v h,
      fun b' hv w => ?_, fun i' hv w => ?_⟩
    · rcases (hiff (Value.Boolean b')).mp hv with
        ⟨hb, hi, hd, b'', hb'', heq⟩ | ⟨hb, hi, hd, i'', hi'', heq⟩ |
        ⟨hb, hi, hd, p, t, hdd, hmc, heq⟩
      · obtain rfl : b'' = b' := by
          cases heq
          rfl
        have hd' := dts_is_empty_some d hd
        subst hd'
        cases w with
        | Boolean wb =>
          simpa [Set.contains] using boolean_value_iff b _ hb'' wb
        | Integer wi =>
          simp [Set.contains, IntSet.isEmpty_contains i hi]
        | DataType wt =>
          simp [Set.contains, DataTypeSet.contains, containsAny]
      · cases heq
      · cases heq
    · rcases (hiff (Value.Integer i')).mp hv with
        ⟨hb, hi, hd, b'', hb'', heq⟩ | ⟨hb, hi, hd, i'', hi'', heq⟩ |
        ⟨hb, hi, hd, p, t, hdd, hmc, heq⟩
      · cases heq
      · obtain rfl : i'' = i' := by
          cases heq
          rfl
        have hd' := dts_is_empty_some d hd
        subst hd'
        cases w with
        | Boolean wb =>
          have hbn : b = Boolean.None := by
            cases b <;> simp_all [Boolean.is_empty]
          subst hbn
          simp [Set.contains, Boolean.contains]
        | Integer wi =>
          simpa [Set.contains] using intset_value_iff i _ hi'' wi
        | DataType wt =>
          simp [Set.contains, DataTypeSet.contains, containsAny]
      · cases heq

/-- The concrete pattern of the C6 counterexample: parameterless class `k`,
nullability bound to the resolved singleton `{false}`, base variation, empty
pack; it matches exactly one concrete type. -/
def pConc : Pattern :=
  Pattern.mk (Class.mk "k" false)
    (some (Reference.mk (Key.Generic "n") none
      (some (Alias.mk "n" (Data.mk []
        (Set.mk (Boolean.Some false) IntSet.empty (DataTypeSet.Some []))
        false false)))))
    (some none) (some [])

/-- The one concrete type matched by `pConc`. -/
def tConc : DataType := DataType.mk (Class.mk "k" false) false none []

/-- The C6 counterexample set: empty boolean and integer partitions, and the
pattern list `[pConc, pConc]`. -/
def sDup : Set :=
  Set.mk Boolean.None IntSet.empty (DataTypeSet.Some [pConc, pConc])

/-- Counterexample for C6 as stated: `sDup` is a singleton — it contains the
metavalue `tConc` and nothing else, its data-type partition being a semantic
singleton and the other two partitions empty — yet `Set::value` returns
`None`, because the data-type partition's `value()` insists on a one-element
pattern list and `sDup` stores the pattern twice. -/
theorem set_value_counterexample :
    (∀ v, Set.contains sDup v = true ↔ v = Value.DataType tConc) ∧
    Set.value sDup = none := by
  constructor
  · intro v
    have hpm : ∀ w, Pattern.matches pConc w = true ↔ w = tConc := by
      intro w
      cases w with
      | mk cw nw vw pw =>
        have hrv : Reference.value (Reference.mk (Key.Generic "n") none
            (some (Alias.mk "n" (Data.mk []
              (Set.mk (Boolean.Some false) IntSet.empty (DataTypeSet.Some []))
              false false)))) = some (Value.Boolean false) := by
          simp [Reference.value, Data.value, Set.value, Boolean.is_empty,
            IntSet.isEmpty, IntSet.empty, DataTypeSet.is_empty, Boolean.value]
        cases pw with
        | nil =>
          simp [Pattern.matches, matchesNull, matchesVar, matchesPars,
            pConc, hrv, tConc, matchesParams]
          constructor
          · rintro ⟨h1, h2, h3⟩
            exact ⟨h1.symm, h2, h3.symm⟩
          · rintro ⟨h1, h2, h3⟩
            exact ⟨h1.symm, h2, h3.symm⟩
        | cons c cs =>
          simp [Pattern.matches, matchesNull, matchesVar, matchesPars,
            pConc, hrv, tConc, matchesParams]
    cases v with
    | Boolean vb => simp [sDup, Set.contains, Boolean.contains, tConc]
    | Integer vi =>
      simp [sDup, Set.contains, IntSet.contains, IntSet.empty, tConc]
    | DataType vt =>
      simp [sDup, Set.contains, DataTypeSet.contains, containsAny, hpm]
  · simp [sDup, Set.value, Boolean.is_empty, IntSet.isEmpty, IntSet.empty,
      DataTypeSet.is_empty, DataTypeSet.value]

/-- Witness for C6 (amended) at a concrete set: the boolean singleton
`{true}` with the other partitions empty has value `true`, and contains it. -/
theorem set_value_amended_witness :
    Set.value (Set.mk (Boolean.Some true) IntSet.empty (DataTypeSet.Some []))
      = some (Value.Boolean true) ∧
    Set.contains (Set.mk (Boolean.Some true) IntSet.empty (DataTypeSet.Some []))
      (Value.Boolean true) = true := by
  have hv : Set.value (Set.mk (Boolean.Some true) IntSet.empty
      (DataTypeSet.Some [])) = some (Value.Boolean true) :=
    (set_value_amended (Set.mk (Boolean.Some true) IntSet.empty
        (DataTypeSet.Some [])) (Value.Boolean true)).1.mpr
      (Or.inl ⟨rfl, rfl, rfl, true, rfl, rfl⟩)
  exact ⟨hv,
    (set_value_amended (Set.mk (Boolean.Some true) IntSet.empty
        (DataTypeSet.Some [])) (Value.Boolean true)).2.1 hv⟩

mutual
/-- Sanity side-condition for cover soundness (claim C3): no bound
nullability metavariable reachable on the covered side has an empty boolean
partition.  An empty value-set only arises from an over-constrained (already
erroneous) metavariable; on such degenerate inputs the source's `matches`
skips the nullability check (`value()` is `None`) while `covers` proves a
vacuous superset, breaking soundness. -/
def nokPat : Pattern → Bool
  | .mk _ nl _ pr => nokNull nl && nokParams pr

/-- Nullability slot: if bound, its boolean partition is non-empty. -/
def nokNull : Option Reference → Bool
  | none => true
  | some (.mk _ _ none) => true
  | some (.mk _ _ (some (.mk _ (.mk _ (.mk b _ _) _ _)))) =>
    !(b == Boolean.None)

/-- Parameter pack of the covered side, recursively. -/
def nokParams : Option (List Parameter) → Bool
  | none => true
  | some ps => nokParamList ps

def nokParamList : List Parameter → Bool
  | [] => true
  | .mk _ r :: ps => nokRef r && nokParamList ps

/-- A parameter metavariable: every pattern in its data-type partition
satisfies `nokPat`. -/
def nokRef : Reference → Bool
  | .mk _ _ none => true
  | .mk _ _ (some (.mk _ (.mk _ (.mk _ _ d) _ _))) => nokDts d

def nokDts : DataTypeSet → Bool
  | .All => true
  | .Some qs => nokList qs

def nokList : List Pattern → Bool
  | [] => true
  | q :: qs => nokPat q && nokList qs
end

theorem Boolean.superset_some (b1 : Bool) (b2 : Boolean)
    (h : Boolean.superset_of (Boolean.Some b1) b2 = true) :
    b2 = Boolean.None ∨ b2 = Boolean.Some b1 := by
  cases b2 <;> simp_all [Boolean.superset_of]

theorem IntSet.superset_empty (s1 s2 : IntSet) (h1 : IntSet.isEmpty s1 = true)
    (hsup : IntSet.superset_of s1 s2 = true) : IntSet.isEmpty s2 = true := by
  rw [IntSet.isEmpty_iff]
  intro v
  unfold IntSet.superset_of at hsup
  rw [IntSet.isEmpty_iff] at hsup
  have hs := hsup v
  rw [IntSet.contains_subtract] at hs
  have h1v := (IntSet.isEmpty_iff s1).mp h1 v
  cases hv : s2.contains v
  · rfl
  · rw [hv, h1v] at hs
    simp at hs

theorem IntSet.superset_full_contains (s : IntSet)
    (hsup : IntSet.superset_of s IntSet.full = true) (v : Int) :
    s.contains v = true :=
  intset_superset_trans s IntSet.full v hsup (IntSet.contains_full v)

theorem scanYs_all_covered (xs ys : List Pattern) (tc : Bool)
    (h : scanYs xs ys tc = some true) :
    ∀ y ∈ ys, ∃ n, scanY xs y 0 = ScanRes.covered n := by
  induction ys generalizing tc with
  | nil => intro y hy; cases hy
  | cons y0 ys ih =>
    intro y hy
    simp only [scanYs] at h
    rcases List.mem_cons.mp hy with rfl | hmem
    · cases hsc : scanY xs y 0 <;> rw [hsc] at h
      · simp at h
      · simp at h
      · exact ⟨_, rfl⟩
    · cases hsc : scanY xs y0 0 <;> rw [hsc] at h
      · simp at h
      · simp at h
      · exact ih _ h y hmem

theorem scanY_covered_exists (xs : List Pattern) (y : Pattern) :
    ∀ n m, scanY xs y n = ScanRes.covered m →
      ∃ x ∈ xs, Pattern.covers x y = some true := by
  induction xs with
  | nil => intro n m h; simp [scanY] at h
  | cons x xs ih =>
    intro n m h
    simp only [scanY] at h
    by_cases hi : Pattern.intersects_with x y = true
    · rw [if_pos hi] at h
      cases hc : Pattern.covers x y <;> rw [hc] at h
      · cases h
      · rename_i bv
        cases bv
        · obtain ⟨x', hx', hc'⟩ := ih _ _ h
          exact ⟨x', by simp [hx'], hc'⟩
        · exact ⟨x, by simp, hc⟩
    · rw [if_neg hi] at h
      obtain ⟨x', hx', hc'⟩ := ih _ _ h
      exact ⟨x', by simp [hx'], hc'⟩

theorem containsAny_exists (ys : List Pattern) (w : DataType)
    (hc : containsAny ys w = true) :
    ∃ y ∈ ys, Pattern.matches y w = true := by
  induction ys with
  | nil => simp [containsAny] at hc
  | cons y0 ys' ih =>
    simp only [containsAny, Bool.or_eq_true] at hc
    rcases hc with hcy | hcy
    · exact ⟨y0, by simp, hcy⟩
    · obtain ⟨y, hy, hmy⟩ := ih hcy
      exact ⟨y, by simp [hy], hmy⟩

theorem containsAny_of_mem (xs : List Pattern) (x : Pattern) (w : DataType)
    (hx : x ∈ xs) (hm : Pattern.matches x w = true) :
    containsAny xs w = true := by
  induction xs with
  | nil => cases hx
  | cons x0 xs' ih =>
    simp only [containsAny, Bool.or_eq_true]
    rcases List.mem_cons.mp hx with rfl | hmem
    · exact Or.inl hm
    · exact Or.inr (ih hmem)

theorem nokList_mem (ys : List Pattern) (y : Pattern)
    (hnok : nokList ys = true) (hy : y ∈ ys) : nokPat y = true := by
  induction ys with
  | nil => cases hy
  | cons y0 ys' ih =>
    simp only [nokList, Bool.and_eq_true] at hnok
    rcases List.mem_cons.mp hy with rfl | hmem
    · exact hnok.1
    · exact ih hnok.2 hmem

/-- The cover-soundness statement of claim C3, graded by the size of the
concrete type. -/
def CoverSound (N : Nat) : Prop :=
  ∀ t : DataType, sizeOf t ≤ N → ∀ p1 p2 : Pattern,
    nokPat p2 = true → Pattern.covers p1 p2 = some true →
    Pattern.matches p2 t = true → Pattern.matches p1 t = true

theorem dts_transfer (N : Nat) (ih : ∀ M, M < N → CoverSound M)
    (d1 d2 : DataTypeSet) (hnok : nokDts d2 = true)
    (hsup : DataTypeSet.superset_of d1 d2 = some true)
    (w : DataType) (hw : sizeOf w < N)
    (hc : DataTypeSet.contains d2 w = true) :
    DataTypeSet.contains d1 w = true := by
  cases d1 with
  | All => simp [DataTypeSet.contains]
  | Some xs =>
    cases d2 with
    | All => simp [DataTypeSet.superset_of] at hsup
    | Some ys =>
      simp only [DataTypeSet.superset_of] at hsup
      by_cases hye : ys.isEmpty = true
      · cases ys with
        | nil => simp [DataTypeSet.contains, containsAny] at hc
        | cons y ys' => simp at hye
      · rw [if_neg hye] at hsup
        by_cases hxe : xs.isEmpty = true
        · rw [if_pos hxe] at hsup
          cases hsup
        · rw [if_neg hxe] at hsup
          obtain ⟨y, hy, hmy⟩ := containsAny_exists ys w
            (by simpa [DataTypeSet.contains] using hc)
          obtain ⟨n, hcovn⟩ := scanYs_all_covered xs ys false hsup y hy
          obtain ⟨x, hx, hcov⟩ := scanY_covered_exists xs y 0 n hcovn
          have hnoky : nokPat y = true :=
            nokList_mem ys y (by simpa [nokDts] using hnok) hy
          have hmx : Pattern.matches x w = true :=
            ih (sizeOf w) hw w le_rfl x y hnoky hcov hmy
          simpa [DataTypeSet.contains] using containsAny_of_mem xs x w hx hmx

theorem set_transfer (N : Nat) (ih : ∀ M, M < N → CoverSound M)
    (s1 s2 : Set) (hnok : nokDts s2.data_types = true)
    (hsup : Set.superset_of s1 s2 = some true) :
    ∀ v : Value, (∀ w, v = Value.DataType w → sizeOf w < N) →
      Set.contains s2 v = true → Set.contains s1 v = true := by
  intro v hv hc
  cases s1 with
  | mk b1 i1 d1 =>
    cases s2 with
    | mk b2 i2 d2 =>
      simp only [Set.superset_of, Option.map_eq_some'] at hsup
      obtain ⟨r, hr, hrt⟩ := hsup
      have hrtrue : r = true ∧ Boolean.superset_of b1 b2 = true ∧
          IntSet.superset_of i1 i2 = true := by
        cases r <;> simp_all
      obtain ⟨rfl, hbs, his⟩ := hrtrue
      cases v with
      | Boolean vb =>
        simp only [Set.contains] at hc ⊢
        exact boolean_superset_trans b1 b2 vb hbs hc
      | Integer vi =>
        simp only [Set.contains] at hc ⊢
        exact intset_superset_trans i1 i2 vi his hc
      | DataType w =>
        simp only [Set.contains] at hc ⊢
        exact dts_transfer N ih d1 d2 (by simpa [Set.data_types] using hnok)
          hr w (hv w rfl) hc

theorem ref_transfer (N : Nat) (ih : ∀ M, M < N → CoverSound M)
    (r1 r2 : Reference) (hnok : nokRef r2 = true)
    (hcov : Reference.covers r1 r2 = some true) :
    ∀ v : Value, (∀ w, v = Value.DataType w → sizeOf w < N) →
      Reference.matches r2 v = true → Reference.matches r1 v = true := by
  intro v hv hm
  cases r1 with
  | mk k1 dc1 a1 =>
    cases a1 with
    | none => simp [Reference.covers] at hcov
    | some al1 =>
      cases al1 with
      | mk nm1 dat1 =>
        cases dat1 with
        | mk cs1 vals1 u1 c1 =>
          cases r2 with
          | mk k2 dc2 a2 =>
            cases a2 with
            | some al2 =>
              cases al2 with
              | mk nm2 dat2 =>
                cases dat2 with
                | mk cs2 vals2 u2 c2 =>
                  cases vals2 with
                  | mk b2 i2 d2 =>
                   have hdc : Data.covers (Data.mk cs1 vals1 u1 c1)
                      (Data.mk cs2 (Set.mk b2 i2 d2) u2 c2) = some true := by
                    simpa [Reference.covers] using hcov
                   simp only [Data.covers] at hdc
                   have hsup : Set.superset_of vals1 (Set.mk b2 i2 d2)
                       = some true := by
                    cases hs : Set.superset_of vals1 (Set.mk b2 i2 d2) with
                    | none =>
                      rw [hs] at hdc
                      simp at hdc
                    | some bv =>
                      cases bv with
                      | false =>
                        rw [hs] at hdc
                        by_cases h2 : (c2 ||
                            !(Set.intersects_with vals1 (Set.mk b2 i2 d2)))
                            = true
                        · simp [h2] at hdc
                        · simp [h2] at hdc
                      | true => rfl
                   have hnok2 : nokDts (Set.mk b2 i2 d2).data_types = true := by
                    simpa [nokRef, Set.data_types] using hnok
                   have := set_transfer N ih vals1 (Set.mk b2 i2 d2) hnok2 hsup
                     v hv
                     (by simpa [Reference.matches, Data.matches] using hm)
                   simpa [Reference.matches, Data.matches] using this
            | none =>
              have hcf : Data.coversFull (Data.mk cs1 vals1 u1 c1)
                  = some true := by
                simpa [Reference.covers] using hcov
              cases vals1 with
              | mk b1 i1 d1 =>
                cases d1 with
                | Some xs =>
                  simp [Data.coversFull, Data.values, Set.data_types] at hcf
                | All =>
                  simp only [Data.coversFull, Data.values, Set.data_types] at hcf
                  have hbi : Boolean.superset_of b1 Boolean.All = true ∧
                      IntSet.superset_of i1 IntSet.full = true := by
                    by_cases hb : (Boolean.superset_of b1 Boolean.All &&
                        IntSet.superset_of i1 IntSet.full) = true
                    · exact ⟨(Bool.and_eq_true _ _ |>.mp hb).1,
                        (Bool.and_eq_true _ _ |>.mp hb).2⟩
                    · simp [hb] at hcf
                      exact ⟨by simpa [Set.booleans] using hcf.1.1,
                        by simpa [Set.integers] using hcf.1.2⟩
                  have hba : b1 = Boolean.All := by
                    cases b1 <;> simp_all [Boolean.superset_of]
                  subst hba
                  cases v with
                  | Boolean vb =>
                    simp [Reference.matches, Data.matches, Set.contains,
                      Boolean.contains]
                  | Integer vi =>
                    simp [Reference.matches, Data.matches, Set.contains,
                      IntSet.superset_full_contains i1 hbi.2 vi]
                  | DataType w =>
                    simp [Reference.matches, Data.matches, Set.contains,
                      DataTypeSet.contains]

theorem null_transfer (r1 r2 : Reference) (nt : Bool)
    (hnok : nokNull (some r2) = true)
    (hcov : Reference.covers r1 r2 = some true)
    (hm : matchesNull (some r2) nt = true) :
    matchesNull (some r1) nt = true := by
  simp only [matchesNull] at hm ⊢
  cases r1 with
  | mk k1 dc1 a1 =>
    cases a1 with
    | none => simp [Reference.covers] at hcov
    | some al1 =>
      cases al1 with
      | mk nm1 dat1 =>
        cases dat1 with
        | mk cs1 vals1 u1 c1 =>
          cases vals1 with
          | mk b1 i1 dt1 =>
            have hval1 : Reference.value (Reference.mk k1 dc1 (some (Alias.mk
                nm1 (Data.mk cs1 (Set.mk b1 i1 dt1) u1 c1))))
                = Set.value (Set.mk b1 i1 dt1) := by
              simp [Reference.value, Data.value]
            rw [hval1]
            cases hv1 : Set.value (Set.mk b1 i1 dt1) with
            | none => simp
            | some val =>
              cases val with
              | Integer vi => simp
              | DataType vd => simp
              | Boolean bb =>
                rcases (Set.value_eq_iff b1 i1 dt1 (Value.Boolean bb)).mp hv1
                  with ⟨hb1e, hi1e, hd1e, b', hbv, heq⟩ |
                    ⟨_, _, _, _, _, heq⟩ | ⟨_, _, _, _, _, _, _, heq⟩
                · injection heq with hbq
                  rw [← hbq] at hbv
                  have hb1 : b1 = Boolean.Some bb := by
                    cases b1 <;> simp_all [Boolean.value]
                  subst hb1
                  have hd1 := dts_is_empty_some dt1 hd1e
                  subst hd1
                  cases r2 with
                  | mk k2 dc2 a2 =>
                    cases a2 with
                    | none =>
                      simp [Reference.covers, Data.coversFull, Data.values,
                        Set.data_types] at hcov
                    | some al2 =>
                      cases al2 with
                      | mk nm2 dat2 =>
                        cases dat2 with
                        | mk cs2 vals2 u2 c2 =>
                          cases vals2 with
                          | mk b2 i2 dt2 =>
                            have hdc : Data.covers
                                (Data.mk cs1 (Set.mk (Boolean.Some bb) i1
                                  (DataTypeSet.Some [])) u1 c1)
                                (Data.mk cs2 (Set.mk b2 i2 dt2) u2 c2)
                                = some true := by
                              simpa [Reference.covers] using hcov
                            simp only [Data.covers] at hdc
                            have hsup : Set.superset_of
                                (Set.mk (Boolean.Some bb) i1 (DataTypeSet.Some []))
                                (Set.mk b2 i2 dt2) = some true := by
                              cases hs : Set.superset_of
                                  (Set.mk (Boolean.Some bb) i1
                                    (DataTypeSet.Some []))
                                  (Set.mk b2 i2 dt2) with
                              | none =>
                                rw [hs] at hdc
                                simp at hdc
                              | some bv =>
                                cases bv with
                                | false =>
                                  rw [hs] at hdc
                                  by_cases h2 : (c2 || !(Set.intersects_with
                                      (Set.mk (Boolean.Some bb) i1
                                        (DataTypeSet.Some []))
                                      (Set.mk b2 i2 dt2))) = true
                                  · simp [h2] at hdc
                                  · simp [h2] at hdc
                                | true => rfl
                            simp only [Set.superset_of,
                              Option.map_eq_some'] at hsup
                            obtain ⟨r, hr, hrt⟩ := hsup
                            have hrtrue : r = true ∧
                                Boolean.superset_of (Boolean.Some bb) b2 = true ∧
                                IntSet.superset_of i1 i2 = true := by
                              cases r <;> simp_all
                            obtain ⟨rfl, hbs, his⟩ := hrtrue
                            have hb2 : b2 = Boolean.Some bb := by
                              rcases Boolean.superset_some bb b2 hbs with h | h
                              · subst h
                                simp [nokNull] at hnok
                              · exact h
                            subst hb2
                            have hdt2e : dt2.is_empty = true := by
                              cases dt2 with
                              | All =>
                                simp [DataTypeSet.superset_of] at hr
                              | Some ys =>
                                simp only [DataTypeSet.superset_of] at hr
                                by_cases hye : ys.isEmpty = true
                                · simpa [DataTypeSet.is_empty] using hye
                                · rw [if_neg hye] at hr
                                  simp at hr
                            have hi2e : IntSet.isEmpty i2 = true :=
                              IntSet.superset_empty i1 i2 hi1e his
                            have hv2 : Set.value (Set.mk (Boolean.Some bb) i2 dt2)
                                = some (Value.Boolean bb) :=
                              (Set.value_eq_iff (Boolean.Some bb) i2 dt2
                                  (Value.Boolean bb)).mpr
                                (Or.inl ⟨rfl, hi2e, hdt2e, bb, rfl, rfl⟩)
                            have hval2 : Reference.value (Reference.mk k2 dc2
                                (some (Alias.mk nm2 (Data.mk cs2
                                  (Set.mk (Boolean.Some bb) i2 dt2) u2 c2))))
                                = some (Value.Boolean bb) := by
                              simpa [Reference.value, Data.value] using hv2
                            rw [hval2] at hm
                            simpa using hm
                · cases heq
                · cases heq

theorem params_transfer (N : Nat) (ih : ∀ M, M < N → CoverSound M) :
    ∀ (sp op : List Parameter) (pt : List CParam),
      sp.length = op.length →
      nokParamList op = true →
      coversParamsZip sp op = some true →
      matchesParams op pt = true →
      (∀ c ∈ pt, ∀ w n, c = CParam.Typ w ∨ c = CParam.NamedType n w →
        sizeOf w < N) →
      matchesParams sp pt = true := by
  intro sp
  induction sp with
  | nil =>
    intro op pt hlen hnok hzip hm hsz
    cases op with
    | nil =>
      cases pt with
      | nil => simp [matchesParams]
      | cons c pt' => simp [matchesParams] at hm
    | cons q op' => simp at hlen
  | cons p1 sp' ihsp =>
    intro op pt hlen hnok hzip hm hsz
    cases op with
    | nil => simp at hlen
    | cons q1 op' =>
      cases pt with
      | nil => simp [matchesParams] at hm
      | cons c pt' =>
        cases p1 with
        | mk pn1 r1 =>
          cases q1 with
          | mk qn1 r2 =>
            have hzc : Reference.covers r1 r2 = some true ∧
                coversParamsZip sp' op' = some true := by
              simp only [coversParamsZip] at hzip
              cases hrc : Reference.covers r1 r2 <;> rw [hrc] at hzip
              · cases hzip
              · rename_i bv
                cases bv
                · cases hzip
                · exact ⟨rfl, hzip⟩
            have hnok1 : nokRef r2 = true ∧ nokParamList op' = true := by
              simpa [nokParamList, Bool.and_eq_true] using hnok
            have hm1 : Parameter.matches (Parameter.mk qn1 r2) c = true ∧
                matchesParams op' pt' = true := by
              simpa [matchesParams, Bool.and_eq_true] using hm
            have htail : matchesParams sp' pt' = true :=
              ihsp op' pt' (by simpa using hlen) hnok1.2 hzc.2 hm1.2
                (fun c' hc' w n h => hsz c' (by simp [hc']) w n h)
            have hhead : Parameter.matches (Parameter.mk pn1 r1) c = true := by
              cases c with
              | Typ w =>
                have hw : sizeOf w < N :=
                  hsz (CParam.Typ w) (by simp) w "" (Or.inl rfl)
                have := ref_transfer N ih r1 r2 hnok1.1 hzc.1
                  (Value.DataType w)
                  (fun w' hw' => by
                    cases hw'
                    exact hw)
                  (by simpa [Parameter.matches] using hm1.1)
                simpa [Parameter.matches] using this
              | NamedType n w =>
                have hw : sizeOf w < N :=
                  hsz (CParam.NamedType n w) (by simp) w n (Or.inr rfl)
                have := ref_transfer N ih r1 r2 hnok1.1 hzc.1
                  (Value.DataType w)
                  (fun w' hw' => by
                    cases hw'
                    exact hw)
                  (by simpa [Parameter.matches] using hm1.1)
                simpa [Parameter.matches] using this
              | Unsigned u =>
                have := ref_transfer N ih r1 r2 hnok1.1 hzc.1
                  (Value.Integer u)
                  (fun w' hw' => by cases hw')
                  (by simpa [Parameter.matches] using hm1.1)
                simpa [Parameter.matches] using this
            simp [matchesParams, hhead, htail]

theorem coverSound : ∀ N, CoverSound N := by
  intro N
  induction N using Nat.strong_induction_on with
  | _ N ih =>
    intro t hts p1 p2 hnok hcov hm
    cases p1 with
    | mk c1 n1 v1 q1 =>
      cases p2 with
      | mk c2 n2 v2 q2 =>
        cases t with
        | mk ct nt vt pt =>
          simp only [Pattern.covers] at hcov
          simp only [Pattern.matches] at hm
          by_cases hc : c1 = c2
          case neg =>
            rw [if_neg hc] at hcov
            cases hcov
          case pos =>
            subst hc
            rw [if_pos rfl] at hcov
            by_cases hct : c1 = ct
            case neg =>
              rw [if_neg hct] at hm
              cases hm
            case pos =>
              subst hct
              rw [if_pos rfl] at hm
              simp only [Bool.and_eq_true] at hm
              obtain ⟨⟨hm1, hm2⟩, hm3⟩ := hm
              -- peel the nullability step of covers
              have hstep1 : coversNull n1 n2 = some true ∧
                  (match coversVar v1 v2 with
                   | some true => coversPars q1 q2
                   | other => other) = some true := by
                cases hns : coversNull n1 n2 with
                | none =>
                  rw [hns] at hcov
                  simp at hcov
                | some bv =>
                  cases bv with
                  | false =>
                    rw [hns] at hcov
                    simp at hcov
                  | true =>
                    rw [hns] at hcov
                    exact ⟨rfl, by simpa using hcov⟩
              obtain ⟨hnull, hrest⟩ := hstep1
              -- nullability component of the goal
              have goal_null : matchesNull n1 nt = true := by
                cases n1 with
                | none => simp [matchesNull]
                | some r1 =>
                  cases n2 with
                  | none => simp [coversNull] at hnull
                  | some r2 =>
                    exact null_transfer r1 r2 nt
                      (by simpa [nokPat, Bool.and_eq_true] using
                        (Bool.and_eq_true _ _ |>.mp
                          (by simpa [nokPat] using hnok)).1)
                      (by simpa [coversNull] using hnull) hm1
              -- variation component
              have hvrest : coversPars q1 q2 = some true ∧
                  matchesVar v1 vt = true := by
                cases v1 with
                | none =>
                  refine ⟨?_, by simp [matchesVar]⟩
                  simpa [coversVar] using hrest
                | some vv1 =>
                  cases v2 with
                  | none => simp [coversVar] at hrest
                  | some vv2 =>
                    by_cases hvv : vv1 = vv2
                    · subst hvv
                      rw [show coversVar (some vv1) (some vv1) = some true
                          from by simp [coversVar]] at hrest
                      refine ⟨by simpa using hrest, ?_⟩
                      simpa [matchesVar] using hm2
                    · rw [show coversVar (some vv1) (some vv2) = some false
                          from by simp [coversVar, hvv]] at hrest
                      simp at hrest
              obtain ⟨hpars, goal_var⟩ := hvrest
              -- parameter component
              have goal_pars : matchesPars q1 pt = true := by
                cases q1 with
                | none => simp [matchesPars]
                | some sp =>
                  cases q2 with
                  | none => simp [coversPars] at hpars
                  | some op =>
                    simp only [coversPars] at hpars
                    by_cases hlen : sp.length = op.length
                    · rw [if_pos hlen] at hpars
                      have hm3' : matchesParams op pt = true := by
                        simpa [matchesPars] using hm3
                      have hmp : matchesParams sp pt = true := by
                        refine params_transfer N ih sp op pt hlen
                          (by simpa [nokPat, nokParams, Bool.and_eq_true] using
                            (Bool.and_eq_true _ _ |>.mp
                              (by simpa [nokPat] using hnok)).2)
                          hpars hm3' ?_
                        intro c hcm w n hcw
                        have hcs : sizeOf c < sizeOf pt :=
                          List.sizeOf_lt_of_mem hcm
                        have hws : sizeOf w < sizeOf c := by
                          rcases hcw with rfl | rfl <;> (simp; try omega)
                        have hpts : sizeOf pt <
                            sizeOf (DataType.mk c1 nt vt pt) := by
                          simp
                          try omega
                        omega
                      simpa [matchesPars] using hmp
                    · rw [if_neg hlen] at hpars
                      cases hpars
              simp [Pattern.matches, goal_null, goal_var, goal_pars]

/-- The left pattern of the C3 counterexample: nullability bound to the
complete singleton `{false}`. -/
def pCovL : Pattern :=
  Pattern.mk (Class.mk "e" false)
    (some (Reference.mk (Key.Generic "a") none
      (some (Alias.mk "a" (Data.mk []
        (Set.mk (Boolean.Some false) IntSet.empty (DataTypeSet.Some []))
        false true)))))
    none none

/-- The right pattern of the C3 counterexample: nullability bound to an
over-constrained (empty) value-set. -/
def pCovR : Pattern :=
  Pattern.mk (Class.mk "e" false)
    (some (Reference.mk (Key.Generic "b") none
      (some (Alias.mk "b" (Data.mk []
        (Set.mk Boolean.None IntSet.empty (DataTypeSet.Some []))
        false false)))))
    none none

/-- A nullable concrete type of the counterexample's class. -/
def tCov : DataType := DataType.mk (Class.mk "e" false) true none []

/-- Counterexample for C3 as stated: `covers(pCovL, pCovR) = Some(true)`
(the empty value-set of `pCovR`'s nullability is a subset of anything and
`pCovL`'s block is complete) and `matches(pCovR, tCov) = true` (an empty
value-set resolves to no boolean, so the nullability check is skipped), but
`matches(pCovL, tCov) = false` (`pCovL`'s nullability resolves to `false`
while `tCov` is nullable). -/
theorem cover_soundness_counterexample :
    Pattern.covers pCovL pCovR = some true ∧
    Pattern.matches pCovR tCov = true ∧
    Pattern.matches pCovL tCov = false := by
  refine ⟨?_, ?_, ?_⟩
  · simp [pCovL, pCovR, Pattern.covers, coversNull, coversVar, coversPars,
      Reference.covers, Data.covers,
      Set.superset_of, DataTypeSet.superset_of, Boolean.superset_of,
      IntSet.superset_of, IntSet.subtract, IntSet.empty, IntSet.isEmpty]
  · simp [pCovR, tCov, Pattern.matches, matchesNull, matchesVar,
      matchesPars, Reference.value, Data.value,
      Set.value, Boolean.is_empty, IntSet.isEmpty, IntSet.empty,
      DataTypeSet.is_empty]
  · simp [pCovL, tCov, Pattern.matches, matchesNull, matchesVar,
      matchesPars, Reference.value, Data.value,
      Set.value, Boolean.is_empty, IntSet.isEmpty, IntSet.empty,
      DataTypeSet.is_empty, Boolean.value]

/-- Claim C3 as amended — cover soundness holds whenever no bound nullability
metavariable reachable on the covered side has an empty (over-constrained)
boolean partition: if `covers(P1, P2)` is the definite `Some(true)` and the
concrete type `t` matches `P2`, then `t` matches `P1`. -/
theorem cover_soundness (p1 p2 : Pattern) (t : DataType)
    (hnok : nokPat p2 = true)
    (hcov : Pattern.covers p1 p2 = some true)
    (hm : Pattern.matches p2 t = true) :
    Pattern.matches p1 t = true :=
  coverSound (sizeOf t) t le_rfl p1 p2 hnok hcov hm

/-- The pattern of the C3 witness. -/
def pSnd : Pattern := Pattern.mk (Class.mk "w" false) none none none

/-- The concrete type of the C3 witness. -/
def tSnd : DataType := DataType.mk (Class.mk "w" false) false none []

/-- Witness for C3 (amended) at concrete inputs: the featureless pattern
covers itself definitively and matches the concrete type. -/
theorem cover_soundness_witness : Pattern.matches pSnd tSnd = true :=
  cover_soundness pSnd pSnd tSnd
    (by simp [nokPat, nokNull, nokParams, pSnd])
    (by simp [Pattern.covers, coversNull, coversVar, coversPars, pSnd])
    (by simp [Pattern.matches, matchesNull, matchesVar, matchesPars, pSnd, tSnd])

/-- Heap model of the alias layer for `Data::merge_with`: an alias block
holds the index of the data block it currently points at (the
`alias.data = …` assignment of the source is an update of this field). -/
structure AliasH where
  data : Nat
deriving DecidableEq, Repr

/-- Heap model of a data block for `Data::merge_with`: the `aliases` field is
the source's `Vec<metavars::alias::Weak>` — `some i` is a live weak
reference upgrading to alias index `i`, `none` is an expired one.  The
constraint and value payloads are parametric, exactly as in the embedded
`Data.constrain` (whose `Set::constrain` is `todo!()` in the source). -/
structure DataH (C V : Type) where
  aliases : List (Option Nat)
  constraints : List C
  values : V
  updated : Bool
  complete : Bool
deriving DecidableEq, Repr

/-- The heap: data blocks and alias blocks, addressed by index. -/
structure StoreH (C V : Type) where
  datas : List (DataH C V)
  aliases : List AliasH
deriving DecidableEq, Repr

/-- Source `Data::constrain` on the heap-model block (same logic as the tree
embedding's `Data.constrain`; `none` is a panic). -/
def constrainH (beq : C → C → Bool) (app : C → V → V) (isEmptyV : V → Bool)
    (d : DataH C V) (c : C) : Option (DataH C V) :=
  if d.constraints.any (fun x => beq x c) then some d
  else if d.complete then none
  else
    let v := app c d.values
    if isEmptyV v then none
    else some { d with values := v, constraints := d.constraints ++ [c],
                       updated := true }

/-- The constraint-replay loop of `Data::merge_with`. -/
def replayH (beq : C → C → Bool) (app : C → V → V) (isEmptyV : V → Bool) :
    DataH C V → List C → Option (DataH C V)
  | d, [] => some d
  | d, c :: cs =>
    match constrainH beq app isEmptyV d c with
    | some d2 => replayH beq app isEmptyV d2 cs
    | none => none

/-- The alias-rewiring pass of `Data::merge_with`: for every live weak
reference of `other`, the source executes `x.borrow_mut().data =
other.clone()` — it writes the reference to the OTHER block (`to` below is
instantiated with the other block's index), although its own comment says
"Remap aliases to block b to block a instead".  Expired entries are
skipped. -/
def retargetH (aliases : List AliasH) (targets : List (Option Nat))
    (tgt : Nat) : List AliasH :=
  targets.foldl
    (fun acc w =>
      match w with
      | some aIdx => acc.set aIdx (AliasH.mk tgt)
      | none => acc)
    aliases

/-- Source `Data::merge_with` on the heap model: assert both blocks
non-complete, drain `other`'s weak aliases keeping the live ones (appended
to `self`'s), rewire each live alias through `retargetH` (with the source's
`other.clone()` target), and replay `other`'s drained constraints into
`self` via `constrain`.  `none` is a panic (assertion or constrain). -/
def mergeWithH (beq : C → C → Bool) (app : C → V → V) (isEmptyV : V → Bool)
    (st : StoreH C V) (selfIdx otherIdx : Nat) : Option (StoreH C V) :=
  match st.datas[selfIdx]?, st.datas[otherIdx]? with
  | some sd, some od =>
    if sd.complete then none
    else if od.complete then none
    else
      let live := od.aliases.filter Option.isSome
      let aliases2 := retargetH st.aliases od.aliases otherIdx
      let sd2 : DataH C V := { sd with aliases := sd.aliases ++ live }
      let od2 : DataH C V := { od with aliases := [], constraints := [] }
      match replayH beq app isEmptyV sd2 od.constraints with
      | some sd3 =>
        some (StoreH.mk ((st.datas.set selfIdx sd3).set otherIdx od2) aliases2)
      | none => none
  | _, _ => none

/-- Claim C2 — the code bug in `Data::merge_with`: on two non-complete
blocks, the live alias of `other` (alias 1) is "reassigned" to `other`
itself (`x.borrow_mut().data = other.clone()`), i.e. it still references the
now-emptied block 1 after the merge, while the claim, the spec and the
function's own comment require that it reference `self` (block 0).  The
expired weak alias is dropped and the constraint is replayed as claimed —
only the retargeting diverges. -/
theorem merge_with_alias_bug :
    mergeWithH (fun a b : Nat => a == b) (fun _ v => v) (fun _ : Nat => false)
      (StoreH.mk
        [DataH.mk [some 0] [0] 7 false false,
         DataH.mk [some 1, none] [1] 9 false false]
        [AliasH.mk 0, AliasH.mk 1])
      0 1
    = some (StoreH.mk
        [DataH.mk [some 0, some 1] [0, 1] 7 true false,
         DataH.mk [] [] 9 false false]
        [AliasH.mk 0, AliasH.mk 1]) ∧
    (StoreH.mk
        [DataH.mk [some 0, some 1] [0, 1] 7 true false,
         DataH.mk [] [] 9 false false]
        [AliasH.mk 0, AliasH.mk 1]).aliases.get? 1 ≠ some (AliasH.mk 0) := by
  constructor
  · rfl
  · decide

end Substrait
